import Mathlib

/-!
# firehose-arweave: the console reader, the block adapter and the block count

A shallow embedding of `codec/consolereader.go` and `codec/block.go`
(namespace `Codec`) and of the block counting of `cmd/firearweave/cli/utils.go`
(namespace `Cli`).

* Go strings are byte sequences: `GoString` is `List UInt8`, and `str` turns a
  Lean string literal into its UTF-8 bytes.
* Go `error` values are the inductive `GoError`; their text is `GoError.Error`.
* The generated package `pbcodec` (the block record, its accessors and its
  protobuf codec) is not part of the sources read here: it is the parameter
  `Schema`.
* A Go call that can panic or wait on a channel returns an `Outcome`.
* The line queue is a `Chan`: the producer `ProcessData` appends to it, the
  consumer `next()` takes from its head.
* A directory listing is the list of its file names.
-/

namespace Codec

/-! ## Strings -/

/-- Go strings: finite sequences of bytes. -/
abbrev GoString := List UInt8

/-- UTF-8 bytes of a string literal. -/
def str (s : String) : GoString := s.toUTF8.data.toList

/-- Go `strings.HasPrefix(s, pre)`. -/
def HasPrefix (s pre : GoString) : Bool := pre.isPrefixOf s

/-- Go `strings.Split(s, sep)` for a separator of one byte, which is how the
sources call it (`" "` and `"-"`): the fields between the separators, in
order; a string without separator gives one field. -/
def Split (s : GoString) (sep : UInt8) : List GoString :=
  match s with
  | [] => [[]]
  | c :: cs =>
    if c = sep then [] :: Split cs sep
    else (c :: (Split cs sep).headD []) :: (Split cs sep).tail

/-- Go `strings.Join(elems, sep)` for a separator of one byte. -/
def Join (elems : List GoString) (sep : UInt8) : GoString :=
  match elems with
  | [] => []
  | [e] => e
  | e :: es => e ++ sep :: Join es sep

deriving instance DecidableEq for Except

/-- Go `fmt` verb `%d` on a non-negative integer. -/
def Itoa (n : Nat) : GoString := str (Nat.repr n)

/-! ## Errors -/

/-- Go error values that the decoder can build or pass on. -/
inductive GoError where
  /-- The value `io.EOF`. -/
  | EOF
  /-- Value from `errors.New(s)`, also what `fmt.Errorf` returns when it wraps nothing. -/
  | errorString (s : GoString)
  /-- Value from `fmt.Errorf(msg + "%w", err)`: `msg` is the text before the verb. -/
  | wrapError (msg : GoString) (err : GoError)
  /-- Value `&strconv.NumError{Func, Num, Err}`. -/
  | NumError (Func Num : GoString) (Err : GoError)
  /-- The value `strconv.ErrSyntax`. -/
  | ErrSyntax
  /-- The value `strconv.ErrRange`. -/
  | ErrRange
  /-- The value `hex.ErrLength`. -/
  | ErrLength
  /-- Value `hex.InvalidByteError(b)`. -/
  | InvalidByteError (b : UInt8)
  deriving DecidableEq, Repr

/-- Upper-case hexadecimal digit of a value below 16. -/
def hexDigitUpper (n : Nat) : UInt8 :=
  if n < 10 then (48 + n).toUInt8 else (55 + n).toUInt8

/-- Go `strconv.IsPrint` on a rune below 256. -/
def isPrintLatin1 (b : UInt8) : Bool :=
  if 0x20 ≤ b.toNat ∧ b.toNat < 0x7F then true
  else if 0xA1 ≤ b.toNat then b.toNat != 0xAD
  else false

/-- UTF-8 encoding of a rune below 256. -/
def encodeRuneLatin1 (b : UInt8) : GoString :=
  if b.toNat < 0x80 then [b]
  else [(0xC0 + b.toNat / 64).toUInt8, (0x80 + b.toNat % 64).toUInt8]

/-- Go `fmt` verb `%#U` on `rune(b)` for a byte `b`: `U+00XX`, followed by the
quoted character when it is printable. -/
def fmtSharpU (b : UInt8) : GoString :=
  str "U+00" ++ [hexDigitUpper (b.toNat / 16), hexDigitUpper (b.toNat % 16)] ++
    (if isPrintLatin1 b then str " \x27" ++ encodeRuneLatin1 b ++ str "\x27" else [])

/-- The method `Error()`: the message of an error value. `Quote` stands for
`strconv.Quote`, which `strconv.NumError` applies to the offending input. -/
def GoError.Error (Quote : GoString → GoString) : GoError → GoString
  | .EOF => str "EOF"
  | .errorString s => s
  | .wrapError msg err => msg ++ err.Error Quote
  | .NumError Func Num Err =>
    str "strconv." ++ Func ++ str ": parsing " ++ Quote Num ++ str ": " ++ Err.Error Quote
  | .ErrSyntax => str "invalid syntax"
  | .ErrRange => str "value out of range"
  | .ErrLength => str "encoding/hex: odd length hex string"
  | .InvalidByteError b => str "encoding/hex: invalid byte: " ++ fmtSharpU b

/-! ## `strconv.ParseUint(s, 10, 64)` -/

/-- The constant `maxUint64`. -/
def maxUint64 : Nat := 2 ^ 64 - 1

/-- In `ParseUint`: the smallest number such that `cutoff * 10 > maxUint64`. -/
def cutoff : Nat := maxUint64 / 10 + 1

/-- Go `lower(c)` of `strconv`: `c | ('x' - 'X')`. -/
def lower (c : UInt8) : UInt8 := c ||| 0x20

/-- The digit loop of `strconv.ParseUint` with base 10 and bit size 64; `s0` is
the whole input, kept for the error value, `n` the value read so far. -/
def ParseUint.loop (s0 : GoString) : GoString → Nat → Except GoError Nat
  | [], n => .ok n
  | c :: cs, n =>
    let d : Option Nat :=
      if 48 ≤ c.toNat ∧ c.toNat ≤ 57 then some (c.toNat - 48)
      else if 97 ≤ (lower c).toNat ∧ (lower c).toNat ≤ 122 then
        some ((lower c).toNat - 97 + 10)
      else none
    match d with
    | none => .error (.NumError (str "ParseUint") s0 .ErrSyntax)
    | some d =>
      if d ≥ 10 then .error (.NumError (str "ParseUint") s0 .ErrSyntax)
      else if n ≥ cutoff then .error (.NumError (str "ParseUint") s0 .ErrRange)
      else
        let n10 := n * 10 % 2 ^ 64
        let n1 := (n10 + d) % 2 ^ 64
        if n1 < n10 ∨ n1 > maxUint64 then .error (.NumError (str "ParseUint") s0 .ErrRange)
        else ParseUint.loop s0 cs n1

/-- Go `strconv.ParseUint(s, 10, 64)`, the only way the sources call it. On
failure Go also returns a number, which no caller here reads. -/
def ParseUint (s : GoString) : Except GoError Nat :=
  if s = [] then .error (.NumError (str "ParseUint") s .ErrSyntax)
  else ParseUint.loop s s 0

/-! ## `hex.DecodeString` -/

/-- Value of a hexadecimal digit, `none` where Go finds no entry in `reverseHexTable`. -/
def fromHexChar (c : UInt8) : Option Nat :=
  if 48 ≤ c.toNat ∧ c.toNat ≤ 57 then some (c.toNat - 48)
  else if 97 ≤ c.toNat ∧ c.toNat ≤ 102 then some (c.toNat - 97 + 10)
  else if 65 ≤ c.toNat ∧ c.toNat ≤ 70 then some (c.toNat - 65 + 10)
  else none

/-- Go `hex.DecodeString(s)`: the bytes decoded before the first fault, and the fault. -/
def DecodeString : GoString → List UInt8 × Option GoError
  | [] => ([], none)
  | [p] =>
    match fromHexChar p with
    | none => ([], some (.InvalidByteError p))
    | some _ => ([], some .ErrLength)
  | p :: q :: rest =>
    match fromHexChar p with
    | none => ([], some (.InvalidByteError p))
    | some a =>
      match fromHexChar q with
      | none => ([], some (.InvalidByteError q))
      | some b => (((a * 16 + b).toUInt8) :: (DecodeString rest).1, (DecodeString rest).2)

/-! ## The block record and its protobuf codec -/

/-- The generated package `pbcodec` and the protobuf library, as far as the
decoder and the adapter use them. `Block` is the struct `pbcodec.Block`,
`Time` is `time.Time`. -/
structure Schema where
  /-- The struct `pbcodec.Block`. -/
  Block : Type
  /-- Go `time.Time`. -/
  Time : Type
  /-- The zero record, what `Reset()` leaves in a message. -/
  zero : Block
  /-- Go `proto.UnmarshalMerge(buf, m)`: the message after the call, and
  whether the call returned an error. -/
  UnmarshalMerge : List UInt8 → Block → Block × Bool
  /-- Go `proto.Marshal(b)`: the wire bytes, or the message of the error. -/
  Marshal : Block → Except GoString (List UInt8)
  /-- The record literal of `newContext`: `Height` set, no transaction. -/
  ofHeight : Nat → Block
  /-- The accessor `b.ID()`. -/
  ID : Block → GoString
  /-- The accessor `b.Number()`, a `uint64`. -/
  Number : Block → Nat
  /-- The accessor `b.PreviousID()`. -/
  PreviousID : Block → GoString
  /-- The accessor `b.Time()`. -/
  Time_ : Block → Time
  /-- A `uint64` is below `2 ^ 64`. -/
  Number_lt : ∀ b, Number b < 2 ^ 64

/-- Go `proto.Unmarshal(buf, m)` of `github.com/golang/protobuf/proto`: it
resets `m`, then merges `buf` into it. -/
def Schema.Unmarshal (S : Schema) (buf : List UInt8) (_m : S.Block) : S.Block × Bool :=
  S.UnmarshalMerge buf S.zero

/-! ## The console reader -/

/-- What a Go call does: return a value, return an error, panic, or wait for
ever on a channel nobody writes to. -/
inductive Outcome (β : Type) where
  /-- The call returns `(out, nil)`. -/
  | ret (out : β)
  /-- The call returns `(nil, err)`. -/
  | fail (err : GoError)
  /-- The call ends in a run-time panic. -/
  | crash
  /-- The call waits to receive from an empty channel that is still open. -/
  | blocked
  deriving DecidableEq, Repr

/-- A `chan string` seen from the receiver: the lines sent and not yet
received, oldest first, and whether the channel has been closed. -/
structure Chan where
  buf : List GoString
  closed : Bool
  deriving DecidableEq, Repr

/-- The struct `parseCtx`. Its field `stats` is never read by the decoder and
is left out. -/
structure parseCtx (S : Schema) where
  currentBlock : S.Block

/-- The struct `ConsoleReader`; `ctx = none` is the nil pointer. The fields
`close` (a function that does nothing) and `done` (a channel nobody uses)
carry no state. -/
structure ConsoleReader (S : Schema) where
  lines : Chan
  ctx : Option (parseCtx S)

/-- Go `NewConsoleReader(lines, rpcUrl)`: it stores the channel and leaves `ctx` nil. -/
def NewConsoleReader (S : Schema) (lines : Chan) : ConsoleReader S :=
  { lines := lines, ctx := none }

/-- Go `newContext(height)`. -/
def newContext (S : Schema) (height : Nat) : parseCtx S :=
  { currentBlock := S.ofHeight height }

/-- The constant `LogPrefix`. -/
def LogPrefix : GoString := str "DMLOG"

/-- The constant `LogBlock`. -/
def LogBlock : GoString := str "BLOCK"

/-- Go `validateChunk(params, count)`: `none` is the nil error. -/
def validateChunk (params : List GoString) (count : Nat) : Option GoError :=
  if params.length ≠ count then
    some (.errorString (Itoa count ++ str " fields required but found " ++ Itoa params.length))
  else none

/-- Go `(r *ConsoleReader).block(params)`, as a function of the parse context
`r.ctx`: the outcome and the parse context after the call. -/
def block (S : Schema) (ctx : Option (parseCtx S)) (params : List GoString) :
    Outcome S.Block × Option (parseCtx S) :=
  match validateChunk params 2 with
  | some err => (.fail (.wrapError (str "invalid log line length: ") err), ctx)
  | none =>
    match ParseUint (params.getD 0 []) with
    | .error err => (.fail (.wrapError (str "invalid block num: ") err), ctx)
    | .ok _blockHeight =>
      match DecodeString (params.getD 1 []) with
      | (_, some err) => (.fail (.wrapError (str "invalid encoded block: ") err), ctx)
      | (bytes, none) =>
        match ctx with
        | none => (.crash, none)
        | some c =>
          match S.Unmarshal bytes c.currentBlock with
          | (b, true) =>
            (.fail (.errorString (str "invalid encoded block: %!w(<nil>)")),
              some { currentBlock := b })
          | (b, false) => (.ret b, some { currentBlock := b })

/-- The loop of `next()` over the lines waiting in the channel: the outcome,
the lines left in the channel, and the parse context after the call. -/
def nextLoop (S : Schema) (closed : Bool) (ctx : Option (parseCtx S)) :
    List GoString → Outcome S.Block × List GoString × Option (parseCtx S)
  | [] => (if closed then .fail .EOF else .blocked, [], ctx)
  | line :: rest =>
    if !HasPrefix line LogPrefix then nextLoop S closed ctx rest
    else if line.length < LogPrefix.length + 1 then (.crash, rest, ctx)
    else
      let tokens := Split (line.drop (LogPrefix.length + 1)) 32
      if tokens.length < 2 then
        (.fail (.errorString (str "invalid log line format: " ++ line)), rest, ctx)
      else if tokens.headD [] = LogBlock then
        ((block S ctx tokens.tail).1, rest, (block S ctx tokens.tail).2)
      else nextLoop S closed ctx rest

/-- Go `(r *ConsoleReader).next()`: the outcome and the reader after the call. -/
def next (S : Schema) (r : ConsoleReader S) : Outcome S.Block × ConsoleReader S :=
  ((nextLoop S r.lines.closed r.ctx r.lines.buf).1,
    { lines := { buf := (nextLoop S r.lines.closed r.ctx r.lines.buf).2.1,
                 closed := r.lines.closed },
      ctx := (nextLoop S r.lines.closed r.ctx r.lines.buf).2.2 })

/-! ## The block adapter -/

/-- The struct `bstream.Block`, as far as `BlockFromProto` fills it;
`Payload = none` is a block no payload has been attached to. -/
structure bstreamBlock (S : Schema) where
  Id : GoString
  Number : Nat
  PreviousId : GoString
  Timestamp : S.Time
  LibNum : Nat
  PayloadKind : Nat
  PayloadVersion : Nat
  Payload : Option (List UInt8)

/-- The enum value `pbbstream.Protocol_UNKNOWN`. -/
def Protocol_UNKNOWN : Nat := 0

/-- Go `bstream.MemoryBlockPayloadSetter`: attaches the bytes and fails never. -/
def MemoryBlockPayloadSetter (S : Schema) (blk : bstreamBlock S) (data : List UInt8) :
    Except GoError (bstreamBlock S) :=
  .ok { blk with Payload := some data }

/-- Go `BlockFromProto(b)`. The package variable `bstream.GetBlockPayloadSetter`
is set outside the sources read here and is the parameter `setter`.
`b.Number() - 1` is a subtraction of `uint64`. -/
def BlockFromProto (S : Schema)
    (setter : bstreamBlock S → List UInt8 → Except GoError (bstreamBlock S))
    (b : S.Block) : Except GoError (bstreamBlock S) :=
  match S.Marshal b with
  | .error err => .error (.errorString (str "unable to marshal to binary form: " ++ err))
  | .ok content =>
    setter
      { Id := S.ID b
        Number := S.Number b
        PreviousId := S.PreviousID b
        Timestamp := S.Time_ b
        LibNum := (S.Number b + 2 ^ 64 - 1) % 2 ^ 64
        PayloadKind := Protocol_UNKNOWN
        PayloadVersion := 1
        Payload := none }
      content

/-! ## Vocabulary of the specification -/

/-- A line of the wire format: the tag, one separator byte, and the tokens
(command name first) joined by single spaces. -/
def wireLine (sep : UInt8) (tokens : List GoString) : GoString :=
  LogPrefix ++ sep :: Join tokens 32

/-- The tag of a line: the text before its first space. -/
def tagOf (line : GoString) : GoString := line.takeWhile (fun c => c != 32)

/-- A token free of spaces. -/
def spaceFree (t : GoString) : Prop := ∀ c ∈ t, c ≠ 32

instance : DecidablePred spaceFree := fun t =>
  inferInstanceAs (Decidable (∀ c ∈ t, c ≠ 32))

/-- A decimal digit `0`..`9`. -/
def isDigit (c : UInt8) : Bool := decide (48 ≤ c.toNat ∧ c.toNat ≤ 57)

/-- The number a string of decimal digits denotes. -/
def decimalValue (s : GoString) : Nat := s.foldl (fun n c => n * 10 + (c.toNat - 48)) 0

/-- A valid height: a non-empty string of decimal digits denoting a value below `2 ^ 64`. -/
def validHeight (s : GoString) : Prop :=
  s ≠ [] ∧ (∀ c ∈ s, isDigit c = true) ∧ decimalValue s < 2 ^ 64

instance : DecidablePred validHeight := fun s =>
  inferInstanceAs (Decidable (s ≠ [] ∧ (∀ c ∈ s, isDigit c = true) ∧ decimalValue s < 2 ^ 64))

/-- A hexadecimal digit `0`..`9`, `a`..`f`, `A`..`F`. -/
def isHexDigit (c : UInt8) : Bool :=
  decide ((48 ≤ c.toNat ∧ c.toNat ≤ 57) ∨ (97 ≤ c.toNat ∧ c.toNat ≤ 102) ∨
    (65 ≤ c.toNat ∧ c.toNat ≤ 70))

/-- A valid hexadecimal string: an even number of hexadecimal digits. -/
def validHex (p : GoString) : Prop := p.length % 2 = 0 ∧ ∀ c ∈ p, isHexDigit c = true

instance : DecidablePred validHex := fun p =>
  inferInstanceAs (Decidable (p.length % 2 = 0 ∧ ∀ c ∈ p, isHexDigit c = true))

/-! ## A schema to run the model on -/

/-- A schema whose record is the list of bytes merged into it. A buffer that
starts with `0xFF` does not parse, a record that holds `0xFF` does not
serialise, and the number of a record is its first byte. -/
def rawSchema : Schema where
  Block := List UInt8
  Time := Nat
  zero := []
  UnmarshalMerge := fun buf m => (m ++ buf, buf.head? == some 255)
  Marshal := fun b => if 255 ∈ b then .error (str "invalid record") else .ok b
  ofHeight := fun h => [h.toUInt8]
  ID := fun b => b
  Number := fun b => (b.headD 0).toNat
  PreviousID := fun b => b.tail
  Time_ := fun b => b.length
  Number_lt := fun b => by
    show (b.headD 0).toNat < 2 ^ 64
    have := (b.headD 0).toNat_lt
    omega

instance : DecidableEq rawSchema.Block := inferInstanceAs (DecidableEq (List UInt8))

instance : DecidableEq (parseCtx rawSchema) := fun a b =>
  decidable_of_iff (a.currentBlock = b.currentBlock)
    ⟨fun h => by cases a; cases b; simp_all, fun h => by rw [h]⟩

instance : DecidableEq (ConsoleReader rawSchema) := fun a b =>
  decidable_of_iff (a.lines = b.lines ∧ a.ctx = b.ctx)
    ⟨fun h => by cases a; cases b; simp_all, fun h => by rw [h]; exact ⟨rfl, rfl⟩⟩

/-! ## Closing the reader and feeding the queue -/

/-- Go `(r *ConsoleReader).Close()`: it calls `r.close`, the function
`func() {}` that `NewConsoleReader` stores; nothing in the reader changes. -/
def ConsoleReader.Close {S : Schema} (r : ConsoleReader S) : ConsoleReader S := r

/-- What `bufio.Scanner` makes of a byte stream: the lines for which `Scan()`
returns true, in order, and the value of `Err()` once `Scan()` returns false;
`none` is the nil error of a stream that ended cleanly. -/
structure Scanner where
  lines : List GoString
  err : Option GoError

/-- The send `c <- line`: the line joins the queue; `none` is the panic of a
send on a closed channel. -/
def Chan.send (c : Chan) (line : GoString) : Option Chan :=
  if c.closed then none else some { c with buf := c.buf ++ [line] }

/-- The loop of `ProcessData`: every scanned line is sent to the queue. -/
def ProcessData.loop : Chan → List GoString → Option Chan
  | c, [] => some c
  | c, line :: rest =>
    match c.send line with
    | none => none
    | some c1 => ProcessData.loop c1 rest

/-- Go `(r *ConsoleReader).ProcessData(reader)`, as a function of what the
scanner reads: the error it returns and the reader after the call. It closes
the queue when `scanner.Err()` is nil, and only then. -/
def ProcessData (S : Schema) (r : ConsoleReader S) (scanner : Scanner) :
    Outcome Unit × ConsoleReader S :=
  match ProcessData.loop r.lines scanner.lines with
  | none => (.crash, r)
  | some c =>
    match scanner.err with
    | none =>
      if c.closed then (.crash, { r with lines := c })
      else (.fail .EOF, { r with lines := { c with closed := true } })
    | some err => (.fail err, { r with lines := c })

/-! ## Vocabulary of the specification, continued -/

/-- A decisive line: a tagged line that is a `BLOCK` command or has fewer than
two tokens. The other lines are the ones `next()` skips. -/
def decisive (line : GoString) : Bool :=
  HasPrefix line LogPrefix &&
    (decide ((Split (line.drop (LogPrefix.length + 1)) 32).length < 2) ||
      (Split (line.drop (LogPrefix.length + 1)) 32).headD [] == LogBlock)

/-- Successive calls of `next()`, `n` of them: their outcomes in order and the
reader after the last one. -/
def nextN (S : Schema) : Nat → ConsoleReader S → List (Outcome S.Block) × ConsoleReader S
  | 0, r => ([], r)
  | n + 1, r => ((next S r).1 :: (nextN S n (next S r).2).1, (nextN S n (next S r).2).2)

/-- A queue of `BLOCK` lines, each given by its height and payload and preceded
by the lines listed with it. -/
def interleave : List (List GoString × GoString × GoString) → List GoString
  | [] => []
  | (pre, h, p) :: more => pre ++ wireLine 32 [LogBlock, h, p] :: interleave more

/-- The record that the payload `p` of a `BLOCK` line decodes to. -/
def decoded (S : Schema) (p : GoString) : S.Block :=
  (S.UnmarshalMerge (DecodeString p).1 S.zero).1

/-- The payload `p` deserialises: `proto.Unmarshal` returns no error on its bytes. -/
def deserialises (S : Schema) (p : GoString) : Prop :=
  (S.UnmarshalMerge (DecodeString p).1 S.zero).2 = false

instance (S : Schema) (p : GoString) : Decidable (deserialises S p) :=
  inferInstanceAs (Decidable ((S.UnmarshalMerge (DecodeString p).1 S.zero).2 = false))

end Codec

namespace Cli

open Codec

/-! ## `cmd/firearweave/cli/utils.go`: counting blocks from file names -/

/-- Go `a < b` on strings: byte-wise lexicographic order. -/
def strLess : GoString → GoString → Bool
  | [], [] => false
  | [], _ :: _ => true
  | _ :: _, [] => false
  | a :: as, b :: bs =>
    if a.toNat < b.toNat then true
    else if b.toNat < a.toNat then false
    else strLess as bs

/-- The order `sort.Slice` leaves the names in: `a` may stand before `b`. -/
def nameLE (a b : GoString) : Prop := strLess b a = false

instance : DecidableRel nameLE := fun a b =>
  inferInstanceAs (Decidable (strLess b a = false))

/-- Go `sort.Slice(blocks, func(i, j) { return blocks[i].Name() < blocks[j].Name() })`
on the names of the files: the names in ascending order. -/
def sortByName (blocks : List GoString) : List GoString :=
  blocks.insertionSort nameLE

/-- Go `lastBlockIn(blocks)`, on the names of the files: the names are sorted,
and the text before the first `-` of the last one is parsed. -/
def lastBlockIn (blocks : List GoString) : Nat :=
  match (sortByName blocks).getLast? with
  | none => 0
  | some lastBlockFile =>
    match ParseUint ((Split lastBlockFile 45).headD []) with
    | .ok lastBlock => if lastBlock > 0 then lastBlock else 0
    | .error _ => 0

/-- Go `max(x, y)` of `utils.go`. -/
def max (x y : Nat) : Nat := if x < y then y else x

/-- Go `countBlocks(dataDir)`, as a function of what `ioutil.ReadDir` returns
for the two directories: `none` is a failed read, which leaves the slice nil.
All sums are sums of `uint64`. -/
def countBlocks (oneBlocks mergedBlocks : Option (List GoString)) : Nat :=
  let count0 : Nat := 0
  let count1 :=
    match oneBlocks with
    | some l => (count0 + l.length % 2 ^ 64) % 2 ^ 64
    | none => count0
  let count2 :=
    match mergedBlocks with
    | some l => (count1 + (l.length % 2 ^ 64) * 100 % 2 ^ 64) % 2 ^ 64
    | none => count1
  let lastBlock :=
    max (lastBlockIn (oneBlocks.getD [])) ((lastBlockIn (mergedBlocks.getD []) + 100) % 2 ^ 64)
  if lastBlock > count2 then (lastBlock + 1) % 2 ^ 64 else count2

/-! ## Vocabulary of the specification for file names -/

/-- The block number of a file name: the unsigned decimal before its first
`-`, `none` when that text does not parse. -/
def blockNumber (name : GoString) : Option Nat :=
  match ParseUint ((Split name 45).headD []) with
  | .ok n => some n
  | .error _ => none

/-- The greatest block number among the names, `0` when no name has one. -/
def greatestBlockNumber (names : List GoString) : Nat :=
  (names.filterMap blockNumber).foldr Nat.max 0

end Cli

namespace Codec

/-! ## Tokenizer lemmas -/

theorem Split_ne_nil (s : GoString) (sep : UInt8) : Split s sep ≠ [] := by
  cases s with
  | nil => simp [Split]
  | cons c cs =>
    unfold Split
    split <;> simp

theorem Split_of_not_mem (sep : UInt8) (t : GoString) (h : ∀ c ∈ t, c ≠ sep) :
    Split t sep = [t] := by
  induction t with
  | nil => simp [Split]
  | cons c cs ih =>
    have hc : c ≠ sep := h c (List.mem_cons_self _ _)
    have ih1 := ih (fun x hx => h x (List.mem_cons_of_mem _ hx))
    simp [Split, hc, ih1]

theorem Split_append_sep (sep : UInt8) (t rest : GoString) (h : ∀ c ∈ t, c ≠ sep) :
    Split (t ++ sep :: rest) sep = t :: Split rest sep := by
  induction t with
  | nil => simp [Split]
  | cons c cs ih =>
    have hc : c ≠ sep := h c (List.mem_cons_self _ _)
    have ih1 := ih (fun x hx => h x (List.mem_cons_of_mem _ hx))
    simp [Split, hc, ih1]

theorem Split_Join (sep : UInt8) (toks : List GoString) (hne : toks ≠ [])
    (h : ∀ t ∈ toks, ∀ c ∈ t, c ≠ sep) : Split (Join toks sep) sep = toks := by
  induction toks with
  | nil => exact absurd rfl hne
  | cons t ts ih =>
    cases ts with
    | nil => simpa [Join] using Split_of_not_mem sep t (h t (List.mem_cons_self _ _))
    | cons u us =>
      have ih1 := ih (by simp) (fun x hx => h x (List.mem_cons_of_mem _ hx))
      rw [Join, Split_append_sep sep t _ (h t (List.mem_cons_self _ _)), ih1]
      simp

theorem LogPrefix_length : LogPrefix.length = 5 := by decide

theorem HasPrefix_LogPrefix_append (x : GoString) : HasPrefix (LogPrefix ++ x) LogPrefix = true := by
  simp [HasPrefix]

theorem wireLine_drop (sep : UInt8) (toks : List GoString) :
    (wireLine sep toks).drop (LogPrefix.length + 1) = Join toks 32 := by
  have : LogPrefix.length + 1 = (LogPrefix ++ [sep]).length := by simp
  rw [this]
  simp [wireLine]

theorem wireLine_length (sep : UInt8) (toks : List GoString) :
    ¬ (wireLine sep toks).length < LogPrefix.length + 1 := by
  simp [wireLine]

/-- One turn of the loop of `next()` on a line of the wire format. -/
theorem nextLoop_wireLine (S : Schema) (closed : Bool) (ctx : Option (parseCtx S))
    (sep : UInt8) (toks : List GoString) (rest : List GoString)
    (hne : toks ≠ []) (h : ∀ t ∈ toks, spaceFree t) :
    nextLoop S closed ctx (wireLine sep toks :: rest) =
      if toks.length < 2 then
        (.fail (.errorString (str "invalid log line format: " ++ wireLine sep toks)), rest, ctx)
      else if toks.headD [] = LogBlock then
        ((block S ctx toks.tail).1, rest, (block S ctx toks.tail).2)
      else nextLoop S closed ctx rest := by
  have hs : Split (Join toks 32) 32 = toks := Split_Join 32 toks hne h
  have hp : HasPrefix (wireLine sep toks) LogPrefix = true := HasPrefix_LogPrefix_append _
  rw [nextLoop]
  simp only [hp, wireLine_length, wireLine_drop, hs]
  simp

theorem nextLoop_skip (S : Schema) (closed : Bool) (ctx : Option (parseCtx S))
    (line : GoString) (rest : List GoString) (h : HasPrefix line LogPrefix = false) :
    nextLoop S closed ctx (line :: rest) = nextLoop S closed ctx rest := by
  rw [nextLoop]
  simp [h]

/-! ## `ParseUint` against the decimal reading -/

theorem foldl_decimal_ge (cs : GoString) (n : Nat) :
    n ≤ cs.foldl (fun n c => n * 10 + (c.toNat - 48)) n := by
  induction cs generalizing n with
  | nil => simp
  | cons c cs ih =>
    simp only [List.foldl_cons]
    exact le_trans (by omega) (ih _)

/-- The digit loop returns a number or a `NumError` on the whole input. -/
theorem ParseUint_loop_form (s0 cs : GoString) (n : Nat) :
    (∃ v, ParseUint.loop s0 cs n = .ok v) ∨
    ParseUint.loop s0 cs n = .error (.NumError (str "ParseUint") s0 .ErrSyntax) ∨
    ParseUint.loop s0 cs n = .error (.NumError (str "ParseUint") s0 .ErrRange) := by
  induction cs generalizing n with
  | nil => exact Or.inl ⟨n, rfl⟩
  | cons c cs ih =>
    rw [ParseUint.loop]
    simp only []
    split
    · simp
    · split
      · simp
      · split
        · simp
        · split
          · simp
          · exact ih _

/-- Digits that denote a value below `2 ^ 64` are read as that value. -/
theorem ParseUint_loop_ok (s0 cs : GoString) (n : Nat)
    (hd : ∀ c ∈ cs, isDigit c = true)
    (hv : cs.foldl (fun n c => n * 10 + (c.toNat - 48)) n < 2 ^ 64) :
    ParseUint.loop s0 cs n = .ok (cs.foldl (fun n c => n * 10 + (c.toNat - 48)) n) := by
  induction cs generalizing n with
  | nil => rfl
  | cons c cs ih =>
    have hc : 48 ≤ c.toNat ∧ c.toNat ≤ 57 := by
      simpa [isDigit] using hd c (List.mem_cons_self _ _)
    simp only [List.foldl_cons] at hv ⊢
    have hge := foldl_decimal_ge cs (n * 10 + (c.toNat - 48))
    have hlt : n * 10 + (c.toNat - 48) < 2 ^ 64 := lt_of_le_of_lt hge hv
    rw [ParseUint.loop]
    simp only [hc, and_self, if_true]
    have h1 : ¬ (c.toNat - 48 ≥ 10) := by omega
    have h2 : ¬ (n ≥ cutoff) := by
      simp only [cutoff, maxUint64]; omega
    have h3 : n * 10 % 2 ^ 64 = n * 10 := Nat.mod_eq_of_lt (by omega)
    have h4 : (n * 10 + (c.toNat - 48)) % 2 ^ 64 = n * 10 + (c.toNat - 48) :=
      Nat.mod_eq_of_lt hlt
    simp only [h1, h2, if_false, h3, h4]
    have h5 : ¬ (n * 10 + (c.toNat - 48) < n * 10 ∨ n * 10 + (c.toNat - 48) > maxUint64) := by
      simp only [maxUint64]; omega
    simp only [h5, if_false]
    exact ih _ (fun x hx => hd x (List.mem_cons_of_mem _ hx)) hv

/-- What the digit loop accepts is a string of digits denoting a value below `2 ^ 64`. -/
theorem ParseUint_loop_sound (s0 cs : GoString) (n v : Nat) (hn : n < 2 ^ 64)
    (h : ParseUint.loop s0 cs n = .ok v) :
    (∀ c ∈ cs, isDigit c = true) ∧
      cs.foldl (fun n c => n * 10 + (c.toNat - 48)) n = v ∧ v < 2 ^ 64 := by
  induction cs generalizing n with
  | nil =>
    simp only [ParseUint.loop, Except.ok.injEq] at h
    subst h
    exact ⟨by simp, rfl, hn⟩
  | cons c cs ih =>
    rw [ParseUint.loop] at h
    simp only [] at h
    by_cases hc : 48 ≤ c.toNat ∧ c.toNat ≤ 57
    · simp only [hc, and_self, if_true] at h
      have h1 : ¬ (c.toNat - 48 ≥ 10) := by omega
      simp only [h1, if_false] at h
      by_cases h2 : n ≥ cutoff
      · simp [h2] at h
      · simp only [h2, if_false] at h
        have h3 : n * 10 % 2 ^ 64 = n * 10 := by
          apply Nat.mod_eq_of_lt
          simp only [cutoff, maxUint64] at h2; omega
        rw [h3] at h
        by_cases h5 : (n * 10 + (c.toNat - 48)) % 2 ^ 64 < n * 10 ∨
            (n * 10 + (c.toNat - 48)) % 2 ^ 64 > maxUint64
        · rw [if_pos h5] at h
          exact absurd h (by simp)
        · rw [if_neg h5] at h
          have h6 : n * 10 + (c.toNat - 48) < 2 ^ 64 := by
            by_contra hcon
            apply h5
            left
            have : (n * 10 + (c.toNat - 48)) % 2 ^ 64 = n * 10 + (c.toNat - 48) - 2 ^ 64 := by
              rw [Nat.mod_eq_sub_mod (by omega)]
              apply Nat.mod_eq_of_lt
              simp only [cutoff, maxUint64] at h2; omega
            omega
          rw [Nat.mod_eq_of_lt h6] at h
          obtain ⟨a, b, c1⟩ := ih _ h6 h
          refine ⟨?_, by simpa using b, c1⟩
          intro x hx
          rcases List.mem_cons.1 hx with rfl | hx
          · simp [isDigit, hc]
          · exact a x hx
    · exfalso
      simp only [hc, if_false] at h
      split at h
      · simp at h
      · rename_i d hd
        split at hd
        · simp only [Option.some.injEq] at hd
          subst hd
          simp at h
        · simp at hd

theorem ParseUint_ok_of_validHeight (s : GoString) (h : validHeight s) :
    ParseUint s = .ok (decimalValue s) := by
  obtain ⟨h1, h2, h3⟩ := h
  simp only [ParseUint, h1, if_false]
  exact ParseUint_loop_ok s s 0 h2 h3

theorem ParseUint_error_of_not_validHeight (s : GoString) (h : ¬ validHeight s) :
    ParseUint s = .error (.NumError (str "ParseUint") s .ErrSyntax) ∨
    ParseUint s = .error (.NumError (str "ParseUint") s .ErrRange) := by
  by_cases h1 : s = []
  · left; simp [ParseUint, h1]
  · simp only [ParseUint, h1, if_false]
    rcases ParseUint_loop_form s s 0 with ⟨v, hv⟩ | h2 | h2
    · exfalso
      obtain ⟨a, b, c⟩ := ParseUint_loop_sound s s 0 v (by norm_num) hv
      exact h ⟨h1, a, by simpa [decimalValue, b] using c⟩
    · exact Or.inl h2
    · exact Or.inr h2

/-! ## `DecodeString` against the hexadecimal reading -/

/-- Induction over a string two bytes at a time, the way `DecodeString` reads it. -/
theorem pairInduction {P : GoString → Prop} (h0 : P []) (h1 : ∀ c, P [c])
    (h2 : ∀ c d rest, P rest → P (c :: d :: rest)) : ∀ l, P l
  | [] => h0
  | [c] => h1 c
  | c :: d :: rest => h2 c d rest (pairInduction h0 h1 h2 rest)

theorem fromHexChar_eq_none (c : UInt8) : fromHexChar c = none ↔ isHexDigit c = false := by
  unfold fromHexChar isHexDigit
  by_cases h1 : 48 ≤ c.toNat ∧ c.toNat ≤ 57
  · simp [h1]
  · by_cases h2 : 97 ≤ c.toNat ∧ c.toNat ≤ 102
    · simp [h1, h2]
    · by_cases h3 : 65 ≤ c.toNat ∧ c.toNat ≤ 70
      · simp [h1, h2, h3]
      · simp [h1, h2, h3]

theorem fromHexChar_isSome (c : UInt8) (h : isHexDigit c = true) : ∃ a, fromHexChar c = some a := by
  cases hc : fromHexChar c with
  | none => rw [(fromHexChar_eq_none c).1 hc] at h; exact absurd h (by simp)
  | some a => exact ⟨a, rfl⟩

/-- A valid hexadecimal string decodes without fault. -/
theorem DecodeString_of_validHex (p : GoString) (h : validHex p) : (DecodeString p).2 = none := by
  induction p using pairInduction with
  | h0 => rfl
  | h1 c =>
    exact absurd h.1 (by simp)
  | h2 c d rest ih =>
    obtain ⟨a, ha⟩ := fromHexChar_isSome c (h.2 c (by simp))
    obtain ⟨b, hb⟩ := fromHexChar_isSome d (h.2 d (by simp))
    have hr : validHex rest := by
      refine ⟨?_, fun x hx => h.2 x (by simp [hx])⟩
      have := h.1
      simp only [List.length_cons] at this
      omega
    simp only [DecodeString, ha, hb]
    exact ih hr

/-- A string that is not valid hexadecimal makes `DecodeString` fail, with
`ErrLength` or with one of its bytes that is no hexadecimal digit. -/
theorem DecodeString_of_not_validHex (p : GoString) (h : ¬ validHex p) :
    (DecodeString p).2 = some .ErrLength ∨
    ∃ b ∈ p, isHexDigit b = false ∧ (DecodeString p).2 = some (.InvalidByteError b) := by
  induction p using pairInduction with
  | h0 => exact absurd ⟨rfl, by simp⟩ h
  | h1 c =>
    cases hc : fromHexChar c with
    | none =>
      right
      exact ⟨c, by simp, (fromHexChar_eq_none c).1 hc, by simp [DecodeString, hc]⟩
    | some a =>
      left
      simp [DecodeString, hc]
  | h2 c d rest ih =>
    cases hc : fromHexChar c with
    | none =>
      right
      exact ⟨c, by simp, (fromHexChar_eq_none c).1 hc, by simp [DecodeString, hc]⟩
    | some a =>
      cases hd : fromHexChar d with
      | none =>
        right
        exact ⟨d, by simp, (fromHexChar_eq_none d).1 hd, by simp [DecodeString, hc, hd]⟩
      | some b =>
        have hcT : isHexDigit c = true := by
          cases hx : isHexDigit c with
          | true => rfl
          | false => rw [(fromHexChar_eq_none c).2 hx] at hc; exact absurd hc (by simp)
        have hdT : isHexDigit d = true := by
          cases hx : isHexDigit d with
          | true => rfl
          | false => rw [(fromHexChar_eq_none d).2 hx] at hd; exact absurd hd (by simp)
        have hr : ¬ validHex rest := by
          intro hv
          apply h
          refine ⟨?_, ?_⟩
          · have := hv.1
            simp only [List.length_cons]
            omega
          · intro x hx
            rcases List.mem_cons.1 hx with rfl | hx
            · exact hcT
            · rcases List.mem_cons.1 hx with rfl | hx
              · exact hdT
              · exact hv.2 x hx
        simp only [DecodeString, hc, hd]
        rcases ih hr with h1 | ⟨x, hx, h2, h3⟩
        · exact Or.inl h1
        · exact Or.inr ⟨x, by simp [hx], h2, h3⟩

/-! ## The block decoder, case by case -/

theorem block_arity (S : Schema) (ctx : Option (parseCtx S)) (params : List GoString)
    (h : params.length ≠ 2) :
    block S ctx params =
      (.fail (.wrapError (str "invalid log line length: ")
        (.errorString (Itoa 2 ++ str " fields required but found " ++ Itoa params.length))),
        ctx) := by
  simp [block, validateChunk, h]

theorem block_height_error (S : Schema) (ctx : Option (parseCtx S)) (a1 a2 : GoString)
    (err : GoError) (h : ParseUint a1 = .error err) :
    block S ctx [a1, a2] = (.fail (.wrapError (str "invalid block num: ") err), ctx) := by
  simp [block, validateChunk, h]

theorem block_payload_error (S : Schema) (ctx : Option (parseCtx S)) (a1 a2 : GoString)
    (err : GoError) (h1 : validHeight a1) (h2 : (DecodeString a2).2 = some err) :
    block S ctx [a1, a2] = (.fail (.wrapError (str "invalid encoded block: ") err), ctx) := by
  have hp := ParseUint_ok_of_validHeight a1 h1
  cases hd : DecodeString a2 with
  | mk bytes e =>
    rw [hd] at h2
    simp only at h2
    subst h2
    simp [block, validateChunk, hp, hd]

theorem block_nil_ctx (S : Schema) (a1 a2 : GoString)
    (h1 : validHeight a1) (h2 : validHex a2) :
    block S none [a1, a2] = (.crash, none) := by
  have hp := ParseUint_ok_of_validHeight a1 h1
  have hx := DecodeString_of_validHex a2 h2
  cases hd : DecodeString a2 with
  | mk bytes e =>
    rw [hd] at hx
    simp only at hx
    subst hx
    simp [block, validateChunk, hp, hd]

theorem block_decoded (S : Schema) (c : parseCtx S) (a1 a2 : GoString)
    (h1 : validHeight a1) (h2 : validHex a2) :
    block S (some c) [a1, a2] =
      if (S.UnmarshalMerge (DecodeString a2).1 S.zero).2 = true then
        (.fail (.errorString (str "invalid encoded block: %!w(<nil>)")),
          some { currentBlock := (S.UnmarshalMerge (DecodeString a2).1 S.zero).1 })
      else
        (.ret (S.UnmarshalMerge (DecodeString a2).1 S.zero).1,
          some { currentBlock := (S.UnmarshalMerge (DecodeString a2).1 S.zero).1 }) := by
  have hp := ParseUint_ok_of_validHeight a1 h1
  have hx := DecodeString_of_validHex a2 h2
  cases hd : DecodeString a2 with
  | mk bytes e =>
    rw [hd] at hx
    simp only at hx
    subst hx
    cases hu : S.UnmarshalMerge bytes S.zero with
    | mk b flag =>
      cases flag <;> simp [block, validateChunk, hp, hd, Schema.Unmarshal, hu]

theorem spaceFree_of_digits (s : GoString) (h : ∀ c ∈ s, isDigit c = true) : spaceFree s := by
  intro c hc heq
  have := h c hc
  subst heq
  exact absurd this (by decide)

theorem spaceFree_of_hex (s : GoString) (h : ∀ c ∈ s, isHexDigit c = true) : spaceFree s := by
  intro c hc heq
  have := h c hc
  subst heq
  exact absurd this (by decide)

/-! ## Whole calls of `next()` -/

theorem next_wireLine (S : Schema) (closed : Bool) (ctx : Option (parseCtx S))
    (sep : UInt8) (toks : List GoString) (rest : List GoString)
    (hne : toks ≠ []) (h : ∀ t ∈ toks, spaceFree t) :
    next S ⟨⟨wireLine sep toks :: rest, closed⟩, ctx⟩ =
      if toks.length < 2 then
        (.fail (.errorString (str "invalid log line format: " ++ wireLine sep toks)),
          ⟨⟨rest, closed⟩, ctx⟩)
      else if toks.headD [] = LogBlock then
        ((block S ctx toks.tail).1, ⟨⟨rest, closed⟩, (block S ctx toks.tail).2⟩)
      else next S ⟨⟨rest, closed⟩, ctx⟩ := by
  simp only [next, nextLoop_wireLine S closed ctx sep toks rest hne h]
  split
  · rfl
  · split <;> rfl

theorem next_block_line (S : Schema) (closed : Bool) (ctx : Option (parseCtx S))
    (sep : UInt8) (args : List GoString) (rest : List GoString)
    (hne : args ≠ []) (h : ∀ t ∈ args, spaceFree t) :
    next S ⟨⟨wireLine sep (LogBlock :: args) :: rest, closed⟩, ctx⟩ =
      ((block S ctx args).1, ⟨⟨rest, closed⟩, (block S ctx args).2⟩) := by
  have hb : spaceFree LogBlock := by decide
  have hall : ∀ t ∈ LogBlock :: args, spaceFree t := by
    intro t ht
    rcases List.mem_cons.1 ht with rfl | ht
    · exact hb
    · exact h t ht
  rw [next_wireLine S closed ctx sep _ rest (by simp) hall]
  have hl : ¬ (LogBlock :: args).length < 2 := by
    cases args with
    | nil => exact absurd rfl hne
    | cons a as => simp
  rw [if_neg hl]
  simp

theorem next_skip (S : Schema) (closed : Bool) (ctx : Option (parseCtx S))
    (line : GoString) (rest : List GoString) (h : HasPrefix line LogPrefix = false) :
    next S ⟨⟨line :: rest, closed⟩, ctx⟩ = next S ⟨⟨rest, closed⟩, ctx⟩ := by
  simp only [next, nextLoop_skip S closed ctx line rest h]

theorem next_skip_all (S : Schema) (closed : Bool) (ctx : Option (parseCtx S))
    (pre rest : List GoString) (h : ∀ l ∈ pre, HasPrefix l LogPrefix = false) :
    next S ⟨⟨pre ++ rest, closed⟩, ctx⟩ = next S ⟨⟨rest, closed⟩, ctx⟩ := by
  induction pre with
  | nil => rfl
  | cons l ls ih =>
    rw [List.cons_append, next_skip S closed ctx l _ (h l (List.mem_cons_self _ _))]
    exact ih (fun x hx => h x (List.mem_cons_of_mem _ hx))

theorem isPrefixOf_takeWhile (p : UInt8 → Bool) (pre l : GoString) (h : ∀ c ∈ pre, p c = true) :
    pre.isPrefixOf (l.takeWhile p) = pre.isPrefixOf l := by
  induction pre generalizing l with
  | nil => simp
  | cons a as ih =>
    have ha : p a = true := h a (List.mem_cons_self _ _)
    cases l with
    | nil => simp
    | cons b bs =>
      by_cases hb : p b = true
      · simp [List.takeWhile, hb, List.isPrefixOf,
          ih bs (fun x hx => h x (List.mem_cons_of_mem _ hx))]
      · have hab : a ≠ b := fun e => hb (e ▸ ha)
        simp [List.takeWhile, hb, List.isPrefixOf, hab]

theorem HasPrefix_tagOf (line : GoString) :
    HasPrefix (tagOf line) LogPrefix = HasPrefix line LogPrefix := by
  unfold HasPrefix tagOf
  exact isPrefixOf_takeWhile _ _ _ (by decide)

/-! ## The claims -/

/-- C1 (the code departs from the claim): on a reader obtained from
`NewConsoleReader`, whose parse context is nil, every line
`DMLOG BLOCK <h> <hexpayload>` with a valid height and a valid hexadecimal
payload ends `next()` in a nil-pointer panic; no block record is returned. -/
theorem C1_valid_block_line_crashes (S : Schema) (closed : Bool) (sep : UInt8)
    (h p : GoString) (rest : List GoString) (hh : validHeight h) (hp : validHex p) :
    next S (NewConsoleReader S ⟨wireLine sep [LogBlock, h, p] :: rest, closed⟩) =
      (.crash, ⟨⟨rest, closed⟩, none⟩) := by
  have hsf : ∀ t ∈ [h, p], spaceFree t := by
    intro t ht
    simp only [List.mem_cons, List.mem_singleton, List.not_mem_nil, or_false] at ht
    rcases ht with rfl | rfl
    · exact spaceFree_of_digits _ hh.2.1
    · exact spaceFree_of_hex _ hp.2
  unfold NewConsoleReader
  rw [next_block_line S closed none sep [h, p] rest (by simp) hsf, block_nil_ctx S h p hh hp]

/-- Witness of C1 at the line of the scenario of the specification. -/
theorem C1_failing_input :
    validHeight (str "100") ∧ validHex (str "0a0208c8") ∧
    next rawSchema (NewConsoleReader rawSchema ⟨[str "DMLOG BLOCK 100 0a0208c8"], false⟩) =
      (.crash, ⟨⟨[], false⟩, none⟩) :=
  ⟨by decide, by decide,
    C1_valid_block_line_crashes rawSchema false 32 (str "100") (str "0a0208c8") []
      (by decide) (by decide)⟩

/-- C2: a line that does not begin with the tag `DMLOG` is skipped, `next()`
on the line followed by `rest` is `next()` on `rest`; and when every queued
line lacks the tag and the queue is closed, `next()` returns `io.EOF`, no
block, and leaves the queue empty. -/
theorem C2_untagged_line_skipped (S : Schema) (closed : Bool) (ctx : Option (parseCtx S))
    (line : GoString) (rest : List GoString) (h : HasPrefix line LogPrefix = false) :
    next S ⟨⟨line :: rest, closed⟩, ctx⟩ = next S ⟨⟨rest, closed⟩, ctx⟩ ∧
    ((∀ l ∈ rest, HasPrefix l LogPrefix = false) →
      next S ⟨⟨line :: rest, true⟩, ctx⟩ = (.fail .EOF, ⟨⟨[], true⟩, ctx⟩)) := by
  refine ⟨next_skip S closed ctx line rest h, fun hall => ?_⟩
  have := next_skip_all S true ctx (line :: rest) [] (by
    intro l hl
    rcases List.mem_cons.1 hl with rfl | hl
    · exact h
    · exact hall l hl)
  rw [List.append_nil] at this
  rw [this]
  rfl

/-- Witness of C2 on two lines of ordinary process output. -/
theorem C2_witness :
    HasPrefix (str "INFO starting node") LogPrefix = false ∧
    next rawSchema ⟨⟨[str "INFO starting node", str "dmlog BLOCK 1 0a"], true⟩, none⟩ =
      (.fail .EOF, ⟨⟨[], true⟩, none⟩) :=
  ⟨by decide,
    (C2_untagged_line_skipped rawSchema true none (str "INFO starting node")
      [str "dmlog BLOCK 1 0a"] (by decide)).2 (by decide)⟩

/-- C3, as the code has it: a tagged `BLOCK` line with `k` arguments, `k ≥ 1`
and `k ≠ 2`, makes `next()` fail with the arity error, whose message names
the expected count 2 and the actual count `k`; no block record is returned,
the line is consumed and the parse context is untouched. A `BLOCK` line
without argument has a single token and fails with the malformed-line error. -/
theorem C3_arity_error (S : Schema) (closed : Bool) (ctx : Option (parseCtx S))
    (sep : UInt8) (args : List GoString) (rest : List GoString) (Quote : GoString → GoString)
    (hne : args ≠ []) (hk : args.length ≠ 2) (hsf : ∀ t ∈ args, spaceFree t) :
    next S ⟨⟨wireLine sep (LogBlock :: args) :: rest, closed⟩, ctx⟩ =
      (.fail (.wrapError (str "invalid log line length: ")
        (.errorString (Itoa 2 ++ str " fields required but found " ++ Itoa args.length))),
        ⟨⟨rest, closed⟩, ctx⟩) ∧
    GoError.Error Quote (.wrapError (str "invalid log line length: ")
        (.errorString (Itoa 2 ++ str " fields required but found " ++ Itoa args.length))) =
      str "invalid log line length: 2 fields required but found " ++ Itoa args.length ∧
    next S ⟨⟨wireLine sep [LogBlock] :: rest, closed⟩, ctx⟩ =
      (.fail (.errorString (str "invalid log line format: " ++ wireLine sep [LogBlock])),
        ⟨⟨rest, closed⟩, ctx⟩) := by
  refine ⟨?_, rfl, ?_⟩
  · rw [next_block_line S closed ctx sep args rest hne hsf, block_arity S ctx args hk]
  · rw [next_wireLine S closed ctx sep [LogBlock] rest (by simp) (by decide)]
    simp

/-- Witness of C3 at a `BLOCK` line with three arguments. -/
theorem C3_witness :
    wireLine 32 [LogBlock, str "100", str "0a", str "0b"] = str "DMLOG BLOCK 100 0a 0b" ∧
    (next rawSchema ⟨⟨[str "DMLOG BLOCK 100 0a 0b"], false⟩, none⟩).1 =
      .fail (.wrapError (str "invalid log line length: ")
        (.errorString (str "2 fields required but found 3"))) :=
  ⟨by decide,
    congrArg Prod.fst
      (C3_arity_error rawSchema false none 32 [str "100", str "0a", str "0b"] [] id
        (by decide) (by decide) (by decide)).1⟩

/-- C3 as stated fails for `k = 0`: the line `DMLOG BLOCK` is a `BLOCK`
command without argument, and `next()` fails on it with the malformed-line
error, not with the arity error. -/
theorem C3_counterexample :
    wireLine 32 [LogBlock] = str "DMLOG BLOCK" ∧
    (next rawSchema ⟨⟨[str "DMLOG BLOCK"], false⟩, none⟩).1 =
      .fail (.errorString (str "invalid log line format: DMLOG BLOCK")) ∧
    (next rawSchema ⟨⟨[str "DMLOG BLOCK"], false⟩, none⟩).1 ≠
      .fail (.wrapError (str "invalid log line length: ")
        (.errorString (str "2 fields required but found 0"))) := by
  decide

/-- C4: on a line `DMLOG BLOCK <a1> <a2>` whose first argument is not a
non-empty string of decimal digits denoting a value below `2 ^ 64`, `next()`
fails with the error `invalid block num`, which wraps the `NumError` of
`ParseUint` on the token `a1` (syntax or range) and whose message quotes
`a1`; this holds whatever `a2` is, no block record is returned and the parse
context is untouched. -/
theorem C4_invalid_height (S : Schema) (closed : Bool) (ctx : Option (parseCtx S))
    (sep : UInt8) (a1 a2 : GoString) (rest : List GoString) (Quote : GoString → GoString)
    (h1 : spaceFree a1) (h2 : spaceFree a2) (hbad : ¬ validHeight a1) :
    ∃ kind, (kind = GoError.ErrSyntax ∨ kind = GoError.ErrRange) ∧
      next S ⟨⟨wireLine sep [LogBlock, a1, a2] :: rest, closed⟩, ctx⟩ =
        (.fail (.wrapError (str "invalid block num: ")
          (.NumError (str "ParseUint") a1 kind)), ⟨⟨rest, closed⟩, ctx⟩) ∧
      GoError.Error Quote (.wrapError (str "invalid block num: ")
          (.NumError (str "ParseUint") a1 kind)) =
        str "invalid block num: strconv.ParseUint: parsing " ++ Quote a1 ++ str ": " ++
          kind.Error Quote := by
  have hsf : ∀ t ∈ [a1, a2], spaceFree t := by
    intro t ht
    simp only [List.mem_cons, List.mem_singleton, List.not_mem_nil, or_false] at ht
    rcases ht with rfl | rfl
    · exact h1
    · exact h2
  have hnext := next_block_line S closed ctx sep [a1, a2] rest (by simp) hsf
  rcases ParseUint_error_of_not_validHeight a1 hbad with he | he
  · refine ⟨.ErrSyntax, Or.inl rfl, ?_, ?_⟩
    · rw [hnext, block_height_error S ctx a1 a2 _ he]
    · rfl
  · refine ⟨.ErrRange, Or.inr rfl, ?_, ?_⟩
    · rw [hnext, block_height_error S ctx a1 a2 _ he]
    · rfl

/-- Witness of C4 at the line `DMLOG BLOCK abc 0a02` of the specification. -/
theorem C4_witness :
    spaceFree (str "abc") ∧ spaceFree (str "0a02") ∧ ¬ validHeight (str "abc") ∧
    ∃ kind, (kind = GoError.ErrSyntax ∨ kind = GoError.ErrRange) ∧
      next rawSchema ⟨⟨wireLine 32 [LogBlock, str "abc", str "0a02"] :: [], true⟩, none⟩ =
        (.fail (.wrapError (str "invalid block num: ")
          (.NumError (str "ParseUint") (str "abc") kind)), ⟨⟨[], true⟩, none⟩) ∧
      GoError.Error id (.wrapError (str "invalid block num: ")
          (.NumError (str "ParseUint") (str "abc") kind)) =
        str "invalid block num: strconv.ParseUint: parsing " ++ id (str "abc") ++ str ": " ++
          kind.Error id :=
  ⟨by decide, by decide, by decide,
    C4_invalid_height rawSchema true none 32 (str "abc") (str "0a02") [] id
      (by decide) (by decide) (by decide)⟩

/-- C5: on a line `DMLOG BLOCK <h> <p>` with a valid height and a payload that
is not valid hexadecimal, `next()` fails with the error
`invalid encoded block`, which wraps `hex.ErrLength` or the
`hex.InvalidByteError` of a byte of `p` that is no hexadecimal digit; it
returns no block record, does not panic, and the parse context after the call
is the one before it. -/
theorem C5_invalid_payload (S : Schema) (closed : Bool) (ctx : Option (parseCtx S))
    (sep : UInt8) (h p : GoString) (rest : List GoString) (Quote : GoString → GoString)
    (hh : validHeight h) (hs : spaceFree p) (hbad : ¬ validHex p) :
    ∃ err, (err = GoError.ErrLength ∨
        ∃ b ∈ p, isHexDigit b = false ∧ err = GoError.InvalidByteError b) ∧
      next S ⟨⟨wireLine sep [LogBlock, h, p] :: rest, closed⟩, ctx⟩ =
        (.fail (.wrapError (str "invalid encoded block: ") err), ⟨⟨rest, closed⟩, ctx⟩) ∧
      GoError.Error Quote (.wrapError (str "invalid encoded block: ") err) =
        str "invalid encoded block: " ++ err.Error Quote := by
  have hsf : ∀ t ∈ [h, p], spaceFree t := by
    intro t ht
    simp only [List.mem_cons, List.mem_singleton, List.not_mem_nil, or_false] at ht
    rcases ht with rfl | rfl
    · exact spaceFree_of_digits _ hh.2.1
    · exact hs
  have hnext := next_block_line S closed ctx sep [h, p] rest (by simp) hsf
  rcases DecodeString_of_not_validHex p hbad with he | ⟨b, hb, hnot, he⟩
  · refine ⟨.ErrLength, Or.inl rfl, ?_, rfl⟩
    rw [hnext, block_payload_error S ctx h p _ hh he]
  · refine ⟨.InvalidByteError b, Or.inr ⟨b, hb, hnot, rfl⟩, ?_, rfl⟩
    rw [hnext, block_payload_error S ctx h p _ hh he]

/-- Witness of C5 at a payload with a byte that is no hexadecimal digit, on a
reader whose parse context is set. -/
theorem C5_witness :
    validHeight (str "100") ∧ spaceFree (str "0a0g") ∧ ¬ validHex (str "0a0g") ∧
    ∃ err, (err = GoError.ErrLength ∨
        ∃ b ∈ str "0a0g", isHexDigit b = false ∧ err = GoError.InvalidByteError b) ∧
      next rawSchema ⟨⟨wireLine 32 [LogBlock, str "100", str "0a0g"] :: [], false⟩,
          some (newContext rawSchema 7)⟩ =
        (.fail (.wrapError (str "invalid encoded block: ") err),
          ⟨⟨[], false⟩, some (newContext rawSchema 7)⟩) ∧
      GoError.Error id (.wrapError (str "invalid encoded block: ") err) =
        str "invalid encoded block: " ++ err.Error id :=
  ⟨by decide, by decide, by decide,
    C5_invalid_payload rawSchema false (some (newContext rawSchema 7)) 32 (str "100")
      (str "0a0g") [] id (by decide) (by decide) (by decide)⟩

/-! ## Every tagged line is a line of the wire format -/

theorem Join_Split (sep : UInt8) (s : GoString) : Join (Split s sep) sep = s := by
  induction s with
  | nil => rfl
  | cons c cs ih =>
    have hne := Split_ne_nil cs sep
    cases hs : Split cs sep with
    | nil => exact absurd hs hne
    | cons t ts =>
      rw [hs] at ih
      by_cases hc : c = sep
      · subst hc
        simp only [Split, if_true, hs, Join, List.nil_append, ih]
      · simp only [Split, hc, if_false, hs, List.headD_cons, List.tail_cons]
        cases ts with
        | nil => simpa [Join] using ih
        | cons u us =>
          simp only [Join] at ih ⊢
          rw [List.cons_append, ih]

theorem Split_fields_free (sep : UInt8) (s : GoString) :
    ∀ t ∈ Split s sep, ∀ c ∈ t, c ≠ sep := by
  induction s with
  | nil => simp [Split]
  | cons c cs ih =>
    have hne := Split_ne_nil cs sep
    cases hs : Split cs sep with
    | nil => exact absurd hs hne
    | cons t ts =>
      rw [hs] at ih
      by_cases hc : c = sep
      · subst hc
        simp only [Split, if_true, hs]
        intro x hx
        rcases List.mem_cons.1 hx with rfl | hx
        · simp
        · exact ih x hx
      · simp only [Split, hc, if_false, hs, List.headD_cons, List.tail_cons]
        intro x hx
        rcases List.mem_cons.1 hx with rfl | hx
        · intro y hy
          rcases List.mem_cons.1 hy with rfl | hy
          · exact hc
          · exact ih t (List.mem_cons_self _ _) y hy
        · exact ih x (List.mem_cons_of_mem _ hx)

/-- A line that begins with the tag and has a sixth byte is the wire line of
that byte and of the tokens the reader splits it into. -/
theorem tagged_line_eq_wireLine (line : GoString) (hp : HasPrefix line LogPrefix = true)
    (hl : ¬ line.length < LogPrefix.length + 1) :
    line = wireLine (line.getD 5 0) (Split (line.drop (LogPrefix.length + 1)) 32) ∧
    ∀ t ∈ Split (line.drop (LogPrefix.length + 1)) 32, spaceFree t := by
  refine ⟨?_, Split_fields_free 32 _⟩
  obtain ⟨r, hr⟩ := List.isPrefixOf_iff_prefix.1 hp
  subst hr
  cases r with
  | nil => simp at hl
  | cons s body =>
    have h5 : (LogPrefix ++ s :: body).getD 5 0 = s := rfl
    have hd : (LogPrefix ++ s :: body).drop (LogPrefix.length + 1) = body := by
      have : LogPrefix.length + 1 = (LogPrefix ++ [s]).length := by simp
      rw [this]
      simp
    rw [h5, hd, wireLine, Join_Split]

/-! ## The claims, continued -/

/-- C6: a line made of the tag `DMLOG`, one separator byte and a remainder
without space makes `next()` fail with the malformed-line error, whose message
is `invalid log line format: ` followed by the line, byte for byte; no block
record is returned, whatever the remainder is. -/
theorem C6_malformed_line (S : Schema) (closed : Bool) (ctx : Option (parseCtx S))
    (sep : UInt8) (rem : GoString) (rest : List GoString) (Quote : GoString → GoString)
    (h : spaceFree rem) :
    next S ⟨⟨(LogPrefix ++ sep :: rem) :: rest, closed⟩, ctx⟩ =
      (.fail (.errorString (str "invalid log line format: " ++ (LogPrefix ++ sep :: rem))),
        ⟨⟨rest, closed⟩, ctx⟩) ∧
    GoError.Error Quote
        (.errorString (str "invalid log line format: " ++ (LogPrefix ++ sep :: rem))) =
      str "invalid log line format: " ++ (LogPrefix ++ sep :: rem) := by
  refine ⟨?_, rfl⟩
  have hw : LogPrefix ++ sep :: rem = wireLine sep [rem] := rfl
  rw [hw, next_wireLine S closed ctx sep [rem] rest (by simp) (by simpa using h)]
  simp

/-- Witness of C6 at a `BLOCK` command without argument. -/
theorem C6_witness :
    spaceFree (str "BLOCK") ∧
    next rawSchema ⟨⟨[str "DMLOG BLOCK", str "next line"], false⟩, none⟩ =
      (.fail (.errorString (str "invalid log line format: DMLOG BLOCK")),
        ⟨⟨[str "next line"], false⟩, none⟩) :=
  ⟨by decide,
    (C6_malformed_line rawSchema false none 32 (str "BLOCK") [str "next line"] id
      (by decide)).1⟩

/-- C7: a tagged line with at least two tokens whose command name is not
exactly `BLOCK` is skipped without error: `next()` on the line followed by
`rest` is `next()` on `rest`. -/
theorem C7_unknown_command_skipped (S : Schema) (closed : Bool) (ctx : Option (parseCtx S))
    (sep : UInt8) (name : GoString) (args : List GoString) (rest : List GoString)
    (hargs : args ≠ []) (hname : name ≠ LogBlock) (hsf : ∀ t ∈ name :: args, spaceFree t) :
    next S ⟨⟨wireLine sep (name :: args) :: rest, closed⟩, ctx⟩ =
      next S ⟨⟨rest, closed⟩, ctx⟩ := by
  rw [next_wireLine S closed ctx sep _ rest (by simp) hsf]
  have hl : ¬ (name :: args).length < 2 := by
    cases args with
    | nil => exact absurd rfl hargs
    | cons a as => simp
  rw [if_neg hl]
  simp [hname]

/-- Witness of C7 at the command name `block`, in lower case. -/
theorem C7_witness :
    wireLine 32 [str "block", str "100", str "0a02"] = str "DMLOG block 100 0a02" ∧
    next rawSchema ⟨⟨[str "DMLOG block 100 0a02", str "DMLOG BLOCK 1"], true⟩, none⟩ =
      next rawSchema ⟨⟨[str "DMLOG BLOCK 1"], true⟩, none⟩ :=
  ⟨by decide,
    C7_unknown_command_skipped rawSchema true none 32 (str "block") [str "100", str "0a02"]
      [str "DMLOG BLOCK 1"] (by decide) (by decide) (by decide)⟩

/-- C8, as the code has it: a line whose tag, the text before its first space,
does not start with the five bytes `DMLOG` is discarded by `next()`, which
goes on with the lines after it; the line gives neither an error nor a block. -/
theorem C8_foreign_tag_discarded (S : Schema) (closed : Bool) (ctx : Option (parseCtx S))
    (line : GoString) (rest : List GoString)
    (h : HasPrefix (tagOf line) LogPrefix = false) :
    next S ⟨⟨line :: rest, closed⟩, ctx⟩ = next S ⟨⟨rest, closed⟩, ctx⟩ := by
  rw [HasPrefix_tagOf] at h
  exact next_skip S closed ctx line rest h

/-- Witness of C8 at a line whose tag is `DMLO`. -/
theorem C8_witness :
    HasPrefix (tagOf (str "DMLO BLOCK 100 0a02")) LogPrefix = false ∧
    next rawSchema ⟨⟨[str "DMLO BLOCK 100 0a02"], true⟩, none⟩ =
      next rawSchema ⟨⟨[], true⟩, none⟩ :=
  ⟨by decide,
    C8_foreign_tag_discarded rawSchema true none (str "DMLO BLOCK 100 0a02") [] (by decide)⟩

/-- C8 as stated fails: the tags `DMLOGS` and `DMLOGXBLOCK` differ from
`DMLOG`, yet the line `DMLOGS` makes `next()` fail with the malformed-line
error, and the line `DMLOGXBLOCK 100 0a02` is decoded as a `BLOCK` command. -/
theorem C8_counterexample :
    tagOf (str "DMLOGS") ≠ LogPrefix ∧
    (next rawSchema ⟨⟨[str "DMLOGS"], true⟩, none⟩).1 =
      .fail (.errorString (str "invalid log line format: DMLOGS")) ∧
    tagOf (str "DMLOGXBLOCK 100 0a02") ≠ LogPrefix ∧
    (next rawSchema ⟨⟨[str "DMLOGXBLOCK 100 0a02"], true⟩,
        some (newContext rawSchema 0)⟩).1 = .ret [10, 2] := by
  decide

theorem uint64_pred (n : Nat) (h1 : 1 ≤ n) (h2 : n < 2 ^ 64) :
    (n + 2 ^ 64 - 1) % 2 ^ 64 = n - 1 := by
  have h : n + 2 ^ 64 - 1 = (n - 1) + 2 ^ 64 := by omega
  rw [h, Nat.add_mod_right]
  exact Nat.mod_eq_of_lt (by omega)

/-- C9: for a block record `b` of number `n ≥ 1` that serialises to `content`,
`BlockFromProto` hands to the payload setter the envelope with
`Id = b.ID()`, `Number = n`, `PreviousId = b.PreviousID()`,
`Timestamp = b.Time()`, `LibNum = n - 1`, `PayloadVersion = 1`, together with
`content`, and with the in-memory setter of `bstream` it returns that envelope
with `content` attached; when serialisation fails it returns an error and no
envelope, whatever the setter is. -/
theorem C9_BlockFromProto (S : Schema) (b : S.Block) :
    (∀ content setter, S.Marshal b = .ok content → 1 ≤ S.Number b →
      BlockFromProto S setter b =
        setter
          { Id := S.ID b
            Number := S.Number b
            PreviousId := S.PreviousID b
            Timestamp := S.Time_ b
            LibNum := S.Number b - 1
            PayloadKind := Protocol_UNKNOWN
            PayloadVersion := 1
            Payload := none }
          content) ∧
    (∀ content, S.Marshal b = .ok content → 1 ≤ S.Number b →
      BlockFromProto S (MemoryBlockPayloadSetter S) b =
        .ok
          { Id := S.ID b
            Number := S.Number b
            PreviousId := S.PreviousID b
            Timestamp := S.Time_ b
            LibNum := S.Number b - 1
            PayloadKind := Protocol_UNKNOWN
            PayloadVersion := 1
            Payload := some content }) ∧
    (∀ msg setter, S.Marshal b = .error msg →
      BlockFromProto S setter b =
        .error (.errorString (str "unable to marshal to binary form: " ++ msg))) := by
  refine ⟨?_, ?_, ?_⟩
  · intro content setter hm hn
    simp only [BlockFromProto, hm, uint64_pred _ hn (S.Number_lt b)]
  · intro content hm hn
    simp only [BlockFromProto, hm, uint64_pred _ hn (S.Number_lt b), MemoryBlockPayloadSetter]
  · intro msg setter hm
    simp only [BlockFromProto, hm]

/-- Witness of C9: the record of number 100 gets `LibNum = 99`, and a record
that does not serialise gets an error. -/
theorem C9_witness :
    rawSchema.Marshal ([100, 1] : List UInt8) = .ok [100, 1] ∧
    1 ≤ rawSchema.Number ([100, 1] : List UInt8) ∧
    BlockFromProto rawSchema (MemoryBlockPayloadSetter rawSchema) ([100, 1] : List UInt8) =
      .ok
        { Id := rawSchema.ID ([100, 1] : List UInt8)
          Number := rawSchema.Number ([100, 1] : List UInt8)
          PreviousId := rawSchema.PreviousID ([100, 1] : List UInt8)
          Timestamp := rawSchema.Time_ ([100, 1] : List UInt8)
          LibNum := rawSchema.Number ([100, 1] : List UInt8) - 1
          PayloadKind := Protocol_UNKNOWN
          PayloadVersion := 1
          Payload := some [100, 1] } ∧
    rawSchema.Number ([100, 1] : List UInt8) - 1 = 99 ∧
    BlockFromProto rawSchema (MemoryBlockPayloadSetter rawSchema) ([255] : List UInt8) =
      .error (.errorString (str "unable to marshal to binary form: invalid record")) :=
  ⟨by decide, by decide,
    (C9_BlockFromProto rawSchema ([100, 1] : List UInt8)).2.1 [100, 1] (by decide) (by decide),
    by decide,
    (C9_BlockFromProto rawSchema ([255] : List UInt8)).2.2 (str "invalid record")
      (MemoryBlockPayloadSetter rawSchema) (by decide)⟩

/-- C10 (the code departs from the claim): on the line `DMLOG BLOCK 1 abc`,
whose payload has an odd length, `next()` fails with an error whose message is
`invalid encoded block: encoding/hex: odd length hex string`; the message
holds neither the line nor the token `abc`. A `BLOCK` line with one argument
gives a message with the two counts and nothing of the line. -/
theorem C10_error_without_line :
    (next rawSchema (NewConsoleReader rawSchema ⟨[str "DMLOG BLOCK 1 abc"], false⟩)).1 =
      .fail (.wrapError (str "invalid encoded block: ") .ErrLength) ∧
    (∀ Quote : GoString → GoString,
      GoError.Error Quote (.wrapError (str "invalid encoded block: ") .ErrLength) =
        str "invalid encoded block: encoding/hex: odd length hex string") ∧
    ¬ (str "DMLOG BLOCK 1 abc" <:+:
        str "invalid encoded block: encoding/hex: odd length hex string") ∧
    ¬ (str "abc" <:+: str "invalid encoded block: encoding/hex: odd length hex string") ∧
    (next rawSchema (NewConsoleReader rawSchema ⟨[str "DMLOG BLOCK 7"], false⟩)).1 =
      .fail (.wrapError (str "invalid log line length: ")
        (.errorString (str "2 fields required but found 1"))) ∧
    ¬ (str "7" <:+: str "invalid log line length: 2 fields required but found 1") :=
  ⟨by decide, fun _ => rfl, by decide, by decide, by decide, by decide⟩

/-! ## Which lines a call of `next()` consumes -/

theorem decisive_of_short (line : GoString) (hp : HasPrefix line LogPrefix = true)
    (hl : line.length < LogPrefix.length + 1) : decisive line = true := by
  have hd : line.drop (LogPrefix.length + 1) = [] := List.drop_eq_nil_of_le (by omega)
  simp [decisive, hp, hd, Split]

/-- A line that is not decisive is skipped. -/
theorem nextLoop_of_not_decisive (S : Schema) (closed : Bool) (ctx : Option (parseCtx S))
    (line : GoString) (rest : List GoString) (h : decisive line = false) :
    nextLoop S closed ctx (line :: rest) = nextLoop S closed ctx rest := by
  cases hp : HasPrefix line LogPrefix with
  | false => exact nextLoop_skip S closed ctx line rest hp
  | true =>
    have hl : ¬ line.length < LogPrefix.length + 1 := by
      intro hl
      rw [decisive_of_short line hp hl] at h
      exact absurd h (by simp)
    simp only [decisive, hp, Bool.true_and, Bool.or_eq_false_iff, decide_eq_false_iff_not,
      beq_eq_false_iff_ne, ne_eq] at h
    rw [nextLoop]
    simp only [hp, hl, h.1, h.2, Bool.not_true, if_false]
    simp

/-- A decisive line ends the call: the lines after it stay in the queue, and
they bear neither on the outcome nor on the parse context. -/
theorem nextLoop_of_decisive (S : Schema) (closed : Bool) (ctx : Option (parseCtx S))
    (line : GoString) (rest : List GoString) (h : decisive line = true) :
    nextLoop S closed ctx (line :: rest) =
      ((nextLoop S closed ctx [line]).1, rest, (nextLoop S closed ctx [line]).2.2) := by
  simp only [decisive, Bool.and_eq_true, Bool.or_eq_true, decide_eq_true_eq, beq_iff_eq] at h
  obtain ⟨hp, ht⟩ := h
  rw [nextLoop, nextLoop]
  simp only [hp, Bool.not_true]
  by_cases hl : line.length < LogPrefix.length + 1
  · simp [hl]
  · simp only [hl, if_false]
    by_cases h2 : (Split (line.drop (LogPrefix.length + 1)) 32).length < 2
    · simp [h2]
    · rcases ht with ht | ht
      · exact absurd ht h2
      · simp only [h2, ht, if_false, if_true]
        simp

/-- The frame of `next()`: after lines that are not decisive, the first
decisive line ends the call and what follows it stays queued, in order. -/
theorem next_frame (S : Schema) (closed : Bool) (ctx : Option (parseCtx S))
    (pre : List GoString) (d : GoString) (rest : List GoString)
    (hpre : ∀ l ∈ pre, decisive l = false) (hd : decisive d = true) :
    next S ⟨⟨pre ++ d :: rest, closed⟩, ctx⟩ =
      ((next S ⟨⟨[d], closed⟩, ctx⟩).1, ⟨⟨rest, closed⟩, (next S ⟨⟨[d], closed⟩, ctx⟩).2.ctx⟩) := by
  induction pre with
  | nil =>
    simp only [List.nil_append, next, nextLoop_of_decisive S closed ctx d rest hd]
  | cons l ls ih =>
    have h1 := nextLoop_of_not_decisive S closed ctx l (ls ++ d :: rest)
      (hpre l (List.mem_cons_self _ _))
    have ih1 := ih (fun x hx => hpre x (List.mem_cons_of_mem _ hx))
    simp only [next, List.cons_append, h1] at ih1 ⊢
    exact ih1

/-- A queue without decisive line is consumed whole: the call ends in `io.EOF`
when the queue is closed, and waits when it is open. -/
theorem next_no_decisive (S : Schema) (closed : Bool) (ctx : Option (parseCtx S))
    (pre : List GoString) (hpre : ∀ l ∈ pre, decisive l = false) :
    next S ⟨⟨pre, closed⟩, ctx⟩ =
      (if closed then .fail .EOF else .blocked, ⟨⟨[], closed⟩, ctx⟩) := by
  induction pre with
  | nil => simp [next, nextLoop]
  | cons l ls ih =>
    have h1 := nextLoop_of_not_decisive S closed ctx l ls (hpre l (List.mem_cons_self _ _))
    have ih1 := ih (fun x hx => hpre x (List.mem_cons_of_mem _ hx))
    simp only [next, h1] at ih1 ⊢
    exact ih1

theorem valid_tokens_spaceFree (h p : GoString) (hh : validHeight h) (hp : validHex p) :
    ∀ t ∈ [h, p], spaceFree t := by
  intro t ht
  simp only [List.mem_cons, List.mem_singleton, List.not_mem_nil, or_false] at ht
  rcases ht with rfl | rfl
  · exact spaceFree_of_digits _ hh.2.1
  · exact spaceFree_of_hex _ hp.2

/-- A `BLOCK` line of the wire format is decisive. -/
theorem decisive_block_line (sep : UInt8) (args : List GoString)
    (h : ∀ t ∈ args, spaceFree t) : decisive (wireLine sep (LogBlock :: args)) = true := by
  have hall : ∀ t ∈ LogBlock :: args, spaceFree t := by
    intro t ht
    rcases List.mem_cons.1 ht with rfl | ht
    · decide
    · exact h t ht
  have hs : Split (Join (LogBlock :: args) 32) 32 = LogBlock :: args :=
    Split_Join 32 _ (by simp) hall
  simp [decisive, HasPrefix_LogPrefix_append, wireLine_drop, hs, wireLine]

/-- A valid `BLOCK` line on a reader whose parse context is set: the payload
is decoded into the context and returned when it deserialises. -/
theorem next_valid_block_line (S : Schema) (closed : Bool) (c : parseCtx S) (sep : UInt8)
    (h p : GoString) (rest : List GoString) (hh : validHeight h) (hp : validHex p) :
    next S ⟨⟨wireLine sep [LogBlock, h, p] :: rest, closed⟩, some c⟩ =
      (if deserialises S p then .ret (decoded S p)
        else .fail (.errorString (str "invalid encoded block: %!w(<nil>)")),
        ⟨⟨rest, closed⟩, some { currentBlock := decoded S p }⟩) := by
  rw [next_block_line S closed (some c) sep [h, p] rest (by simp)
    (valid_tokens_spaceFree h p hh hp), block_decoded S c h p hh hp]
  unfold deserialises decoded
  by_cases hb : (S.UnmarshalMerge (DecodeString p).1 S.zero).2 = true
  · simp [hb]
  · simp [hb]

/-- The calls on a queue of valid `BLOCK` lines, on a reader whose parse
context is set: one block for each line, in the order of the lines, then
`io.EOF` once the closed queue is drained. -/
theorem nextN_valid_block_lines (S : Schema) (c : parseCtx S)
    (segs : List (List GoString × GoString × GoString)) (tail : List GoString)
    (hpre : ∀ s ∈ segs, ∀ l ∈ s.1, decisive l = false)
    (hh : ∀ s ∈ segs, validHeight s.2.1)
    (hp : ∀ s ∈ segs, validHex s.2.2 ∧ deserialises S s.2.2)
    (htail : ∀ l ∈ tail, decisive l = false) :
    (nextN S (segs.length + 1) ⟨⟨interleave segs ++ tail, true⟩, some c⟩).1 =
      segs.map (fun s => Outcome.ret (decoded S s.2.2)) ++ [.fail .EOF] := by
  induction segs generalizing c with
  | nil =>
    simp only [List.length_nil, interleave, List.nil_append, nextN, List.map_nil,
      next_no_decisive S true (some c) tail htail]
    simp
  | cons s more ih =>
    obtain ⟨pre, h, p⟩ := s
    have hpre1 : ∀ l ∈ pre, decisive l = false := hpre (pre, h, p) (List.mem_cons_self _ _)
    have hh1 : validHeight h := hh (pre, h, p) (List.mem_cons_self _ _)
    have hp1 := hp (pre, h, p) (List.mem_cons_self _ _)
    have hdec : decisive (wireLine 32 [LogBlock, h, p]) = true :=
      decisive_block_line 32 [h, p] (valid_tokens_spaceFree h p hh1 hp1.1)
    have hstep : next S ⟨⟨interleave ((pre, h, p) :: more) ++ tail, true⟩, some c⟩ =
        (.ret (decoded S p),
          ⟨⟨interleave more ++ tail, true⟩, some { currentBlock := decoded S p }⟩) := by
      have hq : interleave ((pre, h, p) :: more) ++ tail =
          pre ++ wireLine 32 [LogBlock, h, p] :: (interleave more ++ tail) := by
        simp [interleave]
      rw [hq, next_frame S true (some c) pre _ _ hpre1 hdec,
        next_valid_block_line S true c 32 h p [] hh1 hp1.1]
      simp [hp1.2]
    have ih1 := ih { currentBlock := decoded S p }
      (fun s hs => hpre s (List.mem_cons_of_mem _ hs))
      (fun s hs => hh s (List.mem_cons_of_mem _ hs))
      (fun s hs => hp s (List.mem_cons_of_mem _ hs))
    rw [List.length_cons, nextN, hstep]
    simp only [List.map_cons, List.cons_append]
    rw [ih1]

/-- C11 (the code departs from the claim): a call of `next()` consumes the
lines up to and including the first decisive line and leaves what follows in
the queue, in order; but on a reader obtained from `NewConsoleReader` the
call that reaches a valid `BLOCK` line consumes it and ends in a nil-pointer
panic instead of yielding a block. -/
theorem C11_one_call_one_decisive_line (S : Schema) (closed : Bool)
    (pre : List GoString) (h p : GoString) (rest : List GoString)
    (hpre : ∀ l ∈ pre, decisive l = false) (hh : validHeight h) (hp : validHex p) :
    (∀ (ctx : Option (parseCtx S)) (d : GoString), decisive d = true →
      (next S ⟨⟨pre ++ d :: rest, closed⟩, ctx⟩).2.lines = ⟨rest, closed⟩ ∧
      (next S ⟨⟨pre ++ d :: rest, closed⟩, ctx⟩).1 = (next S ⟨⟨[d], closed⟩, ctx⟩).1) ∧
    next S (NewConsoleReader S ⟨pre ++ wireLine 32 [LogBlock, h, p] :: rest, closed⟩) =
      (.crash, ⟨⟨rest, closed⟩, none⟩) := by
  refine ⟨fun ctx d hd => ?_, ?_⟩
  · rw [next_frame S closed ctx pre d rest hpre hd]
    exact ⟨rfl, rfl⟩
  · have hdec : decisive (wireLine 32 [LogBlock, h, p]) = true :=
      decisive_block_line 32 [h, p] (valid_tokens_spaceFree h p hh hp)
    unfold NewConsoleReader
    rw [next_frame S closed none pre _ rest hpre hdec,
      next_block_line S closed none 32 [h, p] [] (by simp) (valid_tokens_spaceFree h p hh hp),
      block_nil_ctx S h p hh hp]

/-- Witness of C11: a log line, then two valid `BLOCK` lines; the first call
consumes the first two lines and panics. -/
theorem C11_failing_input :
    (∀ l ∈ [str "INFO node started"], decisive l = false) ∧
    validHeight (str "1") ∧ validHex (str "0a") ∧
    next rawSchema (NewConsoleReader rawSchema
        ⟨[str "INFO node started", str "DMLOG BLOCK 1 0a", str "DMLOG BLOCK 2 0b"], true⟩) =
      (.crash, ⟨⟨[str "DMLOG BLOCK 2 0b"], true⟩, none⟩) :=
  ⟨by decide, by decide, by decide,
    (C11_one_call_one_decisive_line rawSchema true [str "INFO node started"] (str "1")
      (str "0a") [str "DMLOG BLOCK 2 0b"] (by decide) (by decide) (by decide)).2⟩

/-- C12 (the code departs from the claim): on a reader obtained from
`NewConsoleReader` the first decode of a valid `BLOCK` line ends in a
nil-pointer panic, so two copies of the line yield no pair of records. On a
reader whose parse context is set, whatever an earlier decode has left in it,
two successive calls on two copies of a line that deserialises yield the same
record, the one its payload decodes to. -/
theorem C12_decoding_twice (S : Schema) (closed : Bool) (sep : UInt8) (h p : GoString)
    (rest : List GoString) (hh : validHeight h) (hp : validHex p) :
    next S (NewConsoleReader S
        ⟨wireLine sep [LogBlock, h, p] :: wireLine sep [LogBlock, h, p] :: rest, closed⟩) =
      (.crash, ⟨⟨wireLine sep [LogBlock, h, p] :: rest, closed⟩, none⟩) ∧
    (∀ c : parseCtx S, deserialises S p →
      (next S ⟨⟨wireLine sep [LogBlock, h, p] :: wireLine sep [LogBlock, h, p] :: rest,
          closed⟩, some c⟩).1 = .ret (decoded S p) ∧
      (next S (next S ⟨⟨wireLine sep [LogBlock, h, p] :: wireLine sep [LogBlock, h, p] :: rest,
          closed⟩, some c⟩).2).1 = .ret (decoded S p)) := by
  refine ⟨?_, fun c hd => ?_⟩
  · unfold NewConsoleReader
    rw [next_block_line S closed none sep [h, p] _ (by simp) (valid_tokens_spaceFree h p hh hp),
      block_nil_ctx S h p hh hp]
  · rw [next_valid_block_line S closed c sep h p _ hh hp]
    simp only [hd, if_true]
    rw [next_valid_block_line S closed _ sep h p _ hh hp]
    simp [hd]

/-- Witness of C12 at two copies of the line of the scenario of the specification. -/
theorem C12_failing_input :
    validHeight (str "100") ∧ validHex (str "0a0208c8") ∧
    next rawSchema (NewConsoleReader rawSchema
        ⟨[str "DMLOG BLOCK 100 0a0208c8", str "DMLOG BLOCK 100 0a0208c8"], true⟩) =
      (.crash, ⟨⟨[str "DMLOG BLOCK 100 0a0208c8"], true⟩, none⟩) :=
  ⟨by decide, by decide,
    (C12_decoding_twice rawSchema true 32 (str "100") (str "0a0208c8") []
      (by decide) (by decide)).1⟩

/-- C13, as the code has it: `Close()` changes nothing in the reader, so
`next()` after it does what it does without it: on an empty queue that the
producer has not closed it waits for a line, and it returns `io.EOF` only on
an empty queue that the producer has closed. -/
theorem C13_Close_changes_nothing (S : Schema) (r : ConsoleReader S)
    (ctx : Option (parseCtx S)) :
    next S r.Close = next S r ∧
    next S (ConsoleReader.Close ⟨⟨[], false⟩, ctx⟩) = (.blocked, ⟨⟨[], false⟩, ctx⟩) ∧
    next S (ConsoleReader.Close ⟨⟨[], true⟩, ctx⟩) = (.fail .EOF, ⟨⟨[], true⟩, ctx⟩) :=
  ⟨rfl, rfl, rfl⟩

/-- C13 as stated fails: after `Close()` on a reader whose queue is empty
and still open, `next()` waits for a line and does not return `io.EOF`. -/
theorem C13_counterexample :
    (next rawSchema (NewConsoleReader rawSchema ⟨[], false⟩).Close).1 = .blocked ∧
    (next rawSchema (NewConsoleReader rawSchema ⟨[], false⟩).Close).1 ≠ .fail .EOF := by
  decide

theorem ProcessData_loop_open (buf ls : List GoString) :
    ProcessData.loop ⟨buf, false⟩ ls = some ⟨buf ++ ls, false⟩ := by
  induction ls generalizing buf with
  | nil => simp [ProcessData.loop]
  | cons l ls ih =>
    simp only [ProcessData.loop, Chan.send, Bool.false_eq_true, if_false]
    rw [ih]
    simp

/-- C14 (the code departs from the claim): when the byte stream fails,
`ProcessData` returns the stream error with every line read pushed to the
queue in order, but it leaves the queue open, so a `next()` that has drained
it waits for a line; on clean exhaustion it returns `io.EOF` and closes the
queue. -/
theorem C14_stream_error_leaves_queue_open (S : Schema) (buf ls : List GoString)
    (ctx : Option (parseCtx S)) (err : GoError) :
    ProcessData S ⟨⟨buf, false⟩, ctx⟩ ⟨ls, some err⟩ =
      (.fail err, ⟨⟨buf ++ ls, false⟩, ctx⟩) ∧
    ProcessData S ⟨⟨buf, false⟩, ctx⟩ ⟨ls, none⟩ =
      (.fail .EOF, ⟨⟨buf ++ ls, true⟩, ctx⟩) ∧
    next S ⟨⟨[], false⟩, ctx⟩ = (.blocked, ⟨⟨[], false⟩, ctx⟩) ∧
    (next rawSchema (ProcessData rawSchema (NewConsoleReader rawSchema ⟨[], false⟩)
        ⟨[str "INFO a", str "INFO b"],
          some (.errorString (str "bufio.Scanner: token too long"))⟩).2).1 = .blocked := by
  refine ⟨?_, ?_, rfl, by decide⟩
  · simp [ProcessData, ProcessData_loop_open]
  · simp [ProcessData, ProcessData_loop_open]

/-- C15: on a reader whose parse context is set, two lines
`DMLOG BLOCK <h1> <p>` and `DMLOG BLOCK <h2> <p>` with valid heights and the
same valid payload give the same outcome and leave the same record in the
context, whatever the context held before; when the payload deserialises the
outcome is the record the payload decodes to, in which the height has no part. -/
theorem C15_record_from_payload_alone (S : Schema) (closed1 closed2 : Bool)
    (c1 c2 : parseCtx S) (sep1 sep2 : UInt8) (h1 h2 p : GoString)
    (rest1 rest2 : List GoString)
    (hh1 : validHeight h1) (hh2 : validHeight h2) (hp : validHex p) :
    (next S ⟨⟨wireLine sep1 [LogBlock, h1, p] :: rest1, closed1⟩, some c1⟩).1 =
      (next S ⟨⟨wireLine sep2 [LogBlock, h2, p] :: rest2, closed2⟩, some c2⟩).1 ∧
    (next S ⟨⟨wireLine sep1 [LogBlock, h1, p] :: rest1, closed1⟩, some c1⟩).2.ctx =
      (next S ⟨⟨wireLine sep2 [LogBlock, h2, p] :: rest2, closed2⟩, some c2⟩).2.ctx ∧
    (deserialises S p →
      (next S ⟨⟨wireLine sep1 [LogBlock, h1, p] :: rest1, closed1⟩, some c1⟩).1 =
        .ret (decoded S p)) := by
  rw [next_valid_block_line S closed1 c1 sep1 h1 p rest1 hh1 hp,
    next_valid_block_line S closed2 c2 sep2 h2 p rest2 hh2 hp]
  refine ⟨rfl, rfl, fun hd => ?_⟩
  simp [hd]

/-- Witness of C15 at the heights 100 and 7 with the payload `0a02`, on two
readers whose contexts hold different records. -/
theorem C15_witness :
    validHeight (str "100") ∧ validHeight (str "7") ∧ validHex (str "0a02") ∧
    (next rawSchema ⟨⟨[str "DMLOG BLOCK 100 0a02"], true⟩, some (newContext rawSchema 1)⟩).1 =
      (next rawSchema ⟨⟨[str "DMLOG BLOCK 7 0a02"], true⟩, some (newContext rawSchema 2)⟩).1 ∧
    (next rawSchema ⟨⟨[str "DMLOG BLOCK 100 0a02"], true⟩, some (newContext rawSchema 1)⟩).1 =
      .ret [10, 2] :=
  ⟨by decide, by decide, by decide,
    (C15_record_from_payload_alone rawSchema true true (newContext rawSchema 1)
      (newContext rawSchema 2) 32 32 (str "100") (str "7") (str "0a02") [] []
      (by decide) (by decide) (by decide)).1,
    by decide⟩

theorem block_ctx_outcome (S : Schema) (c : parseCtx S) (params : List GoString) :
    (∃ e, (block S (some c) params).1 = .fail e) ∨
    (∃ b, (block S (some c) params).1 = .ret b) := by
  unfold block
  cases hv : validateChunk params 2 with
  | some e => exact Or.inl ⟨_, rfl⟩
  | none =>
    cases hpu : ParseUint (params.getD 0 []) with
    | error e => exact Or.inl ⟨_, rfl⟩
    | ok n =>
      cases hd : DecodeString (params.getD 1 []) with
      | mk bytes e =>
        cases e with
        | some e => exact Or.inl ⟨_, rfl⟩
        | none =>
          cases hu : S.Unmarshal bytes c.currentBlock with
          | mk b f =>
            cases f with
            | true => simp [hu]
            | false => simp [hu]

theorem eq_LogPrefix_of_short (line : GoString) (hp : HasPrefix line LogPrefix = true)
    (hl : line.length < LogPrefix.length + 1) : line = LogPrefix := by
  obtain ⟨t, ht⟩ := List.isPrefixOf_iff_prefix.1 hp
  subst ht
  cases t with
  | nil => simp
  | cons a as => simp at hl

/-- The bare tag is the only line on which `next()` indexes out of range: on
a reader whose parse context is set, a closed queue without the line `DMLOG`
ends every call with a block or an error. -/
theorem next_total_without_bare_tag (S : Schema) (c : parseCtx S) (lines : List GoString)
    (h : ∀ l ∈ lines, l ≠ LogPrefix) :
    (nextLoop S true (some c) lines).1 ≠ .crash ∧
    (nextLoop S true (some c) lines).1 ≠ .blocked := by
  induction lines with
  | nil => simp [nextLoop]
  | cons l ls ih =>
    have ih1 := ih (fun x hx => h x (List.mem_cons_of_mem _ hx))
    have hne : l ≠ LogPrefix := h l (List.mem_cons_self _ _)
    rw [nextLoop]
    cases hp : HasPrefix l LogPrefix with
    | false => simpa using ih1
    | true =>
      have hl : ¬ l.length < LogPrefix.length + 1 :=
        fun hl => hne (eq_LogPrefix_of_short l hp hl)
      simp only [Bool.not_true, Bool.false_eq_true, hl, if_false]
      by_cases h2 : (Split (l.drop (LogPrefix.length + 1)) 32).length < 2
      · simp [h2]
      · simp only [h2, if_false]
        by_cases h3 : (Split (l.drop (LogPrefix.length + 1)) 32).headD [] = LogBlock
        · simp only [h3, if_true]
          rcases block_ctx_outcome S c (Split (l.drop (LogPrefix.length + 1)) 32).tail with
            ⟨e, he⟩ | ⟨b, hb⟩
          · rw [he]; simp
          · rw [hb]; simp
        · simp only [h3, if_false]
          exact ih1

/-- C16 (the code departs from the claim): on the line that is exactly
`DMLOG`, `next()` evaluates `line[len(LogPrefix)+1:]` on a string of five
bytes and ends in a slice-bounds panic, whatever the reader and whatever
follows in the queue; the same happens when lines without the tag come
before it. -/
theorem C16_bare_tag_panics (S : Schema) (closed : Bool) (ctx : Option (parseCtx S))
    (pre rest : List GoString) :
    next S ⟨⟨str "DMLOG" :: rest, closed⟩, ctx⟩ = (.crash, ⟨⟨rest, closed⟩, ctx⟩) ∧
    ((∀ l ∈ pre, HasPrefix l LogPrefix = false) →
      next S ⟨⟨pre ++ str "DMLOG" :: rest, closed⟩, ctx⟩ = (.crash, ⟨⟨rest, closed⟩, ctx⟩)) := by
  have h0 : next S ⟨⟨str "DMLOG" :: rest, closed⟩, ctx⟩ = (.crash, ⟨⟨rest, closed⟩, ctx⟩) := rfl
  refine ⟨h0, fun hpre => ?_⟩
  rw [next_skip_all S closed ctx pre _ hpre]
  exact h0

/-- Witness of C16: an ordinary log line, then the bare tag. -/
theorem C16_failing_input :
    (∀ l ∈ [str "INFO node started"], HasPrefix l LogPrefix = false) ∧
    next rawSchema ⟨⟨[str "INFO node started", str "DMLOG", str "DMLOG BLOCK 1 0a"], true⟩,
        some (newContext rawSchema 0)⟩ =
      (.crash, ⟨⟨[str "DMLOG BLOCK 1 0a"], true⟩, some (newContext rawSchema 0)⟩) :=
  ⟨by decide,
    (C16_bare_tag_panics rawSchema true (some (newContext rawSchema 0))
      [str "INFO node started"] [str "DMLOG BLOCK 1 0a"]).2 (by decide)⟩

theorem uint64_pred_int (n : Nat) (h2 : n < 2 ^ 64) :
    (((n + 2 ^ 64 - 1) % 2 ^ 64 : Nat) : Int) = ((n : Int) - 1) % 2 ^ 64 := by
  omega

/-- C17: for a record that serialises, `BlockFromProto` with the in-memory
payload setter does not fail, and the `LibNum` of its envelope is
`(Number - 1) mod 2 ^ 64`: it is `2 ^ 64 - 1 = 18446744073709551615` for the
record of number 0, and it is below `Number` exactly when `Number ≥ 1`. -/
theorem C17_LibNum_wraps (S : Schema) (b : S.Block) (content : List UInt8)
    (hm : S.Marshal b = .ok content) :
    ∃ L : Nat,
      BlockFromProto S (MemoryBlockPayloadSetter S) b =
        .ok
          { Id := S.ID b
            Number := S.Number b
            PreviousId := S.PreviousID b
            Timestamp := S.Time_ b
            LibNum := L
            PayloadKind := Protocol_UNKNOWN
            PayloadVersion := 1
            Payload := some content } ∧
      (L : Int) = ((S.Number b : Int) - 1) % 2 ^ 64 ∧
      (S.Number b = 0 → L = 18446744073709551615) ∧
      (L < S.Number b ↔ 1 ≤ S.Number b) := by
  refine ⟨(S.Number b + 2 ^ 64 - 1) % 2 ^ 64, ?_, uint64_pred_int _ (S.Number_lt b), ?_, ?_⟩
  · simp only [BlockFromProto, hm, MemoryBlockPayloadSetter]
  · intro h0
    rw [h0]
    norm_num
  · have := S.Number_lt b
    omega

/-- Witness of C17 at a record of number 0. -/
theorem C17_witness :
    rawSchema.Marshal ([0, 1] : List UInt8) = .ok [0, 1] ∧
    rawSchema.Number ([0, 1] : List UInt8) = 0 ∧
    ∃ L : Nat,
      BlockFromProto rawSchema (MemoryBlockPayloadSetter rawSchema) ([0, 1] : List UInt8) =
        .ok
          { Id := rawSchema.ID ([0, 1] : List UInt8)
            Number := rawSchema.Number ([0, 1] : List UInt8)
            PreviousId := rawSchema.PreviousID ([0, 1] : List UInt8)
            Timestamp := rawSchema.Time_ ([0, 1] : List UInt8)
            LibNum := L
            PayloadKind := Protocol_UNKNOWN
            PayloadVersion := 1
            Payload := some [0, 1] } ∧
      (L : Int) = ((rawSchema.Number ([0, 1] : List UInt8) : Int) - 1) % 2 ^ 64 ∧
      (rawSchema.Number ([0, 1] : List UInt8) = 0 → L = 18446744073709551615) ∧
      (L < rawSchema.Number ([0, 1] : List UInt8) ↔
        1 ≤ rawSchema.Number ([0, 1] : List UInt8)) :=
  ⟨by decide, by decide,
    C17_LibNum_wraps rawSchema ([0, 1] : List UInt8) [0, 1] (by decide)⟩

end Codec

namespace Cli

open Codec

/-! ## The order of file names -/

theorem strLess_irrefl (a : GoString) : strLess a a = false := by
  induction a with
  | nil => rfl
  | cons x xs ih => simp [strLess, ih]

theorem strLess_asymm (a b : GoString) (h : strLess a b = true) : strLess b a = false := by
  induction a generalizing b with
  | nil =>
    cases b with
    | nil => simp [strLess] at h
    | cons y ys => simp [strLess]
  | cons x xs ih =>
    cases b with
    | nil => simp [strLess] at h
    | cons y ys =>
      simp only [strLess] at h ⊢
      by_cases h1 : x.toNat < y.toNat
      · have h2 : ¬ y.toNat < x.toNat := by omega
        simp [h2, h1]
      · by_cases h2 : y.toNat < x.toNat
        · simp [h1, h2] at h
        · simp only [h1, h2, if_false] at h ⊢
          exact ih ys h

theorem nameLE_total (a b : GoString) : nameLE a b ∨ nameLE b a := by
  unfold nameLE
  cases h : strLess b a with
  | false => exact Or.inl rfl
  | true => exact Or.inr (strLess_asymm b a h)

theorem nameLE_trans (a b c : GoString) (h1 : nameLE a b) (h2 : nameLE b c) : nameLE a c := by
  unfold nameLE at *
  induction a generalizing b c with
  | nil =>
    cases c with
    | nil => rfl
    | cons z zs => simp [strLess]
  | cons x xs ih =>
    cases b with
    | nil => simp [strLess] at h1
    | cons y ys =>
      cases c with
      | nil => simp [strLess] at h2
      | cons z zs =>
        simp only [strLess] at h1 h2 ⊢
        by_cases hyx : y.toNat < x.toNat
        · simp [hyx] at h1
        · by_cases hzy : z.toNat < y.toNat
          · simp [hzy] at h2
          · have hzx : ¬ z.toNat < x.toNat := by omega
            simp only [hyx, hzy, hzx, if_false] at h1 h2 ⊢
            by_cases hxy : x.toNat < y.toNat
            · have hxz : x.toNat < z.toNat := by omega
              simp [hxz]
            · by_cases hyz : y.toNat < z.toNat
              · have hxz : x.toNat < z.toNat := by omega
                simp [hxz]
              · have hxz : ¬ x.toNat < z.toNat := by omega
                simp only [hxy, hyz, hxz, if_false] at h1 h2 ⊢
                exact ih ys zs h1 h2

theorem UInt8_eq_of_toNat (x y : UInt8) (h : x.toNat = y.toNat) : x = y := by
  apply UInt8.ext
  exact h

theorem nameLE_antisymm (a b : GoString) (h1 : nameLE a b) (h2 : nameLE b a) : a = b := by
  unfold nameLE at *
  induction a generalizing b with
  | nil =>
    cases b with
    | nil => rfl
    | cons y ys => simp [strLess] at h2
  | cons x xs ih =>
    cases b with
    | nil => simp [strLess] at h1
    | cons y ys =>
      simp only [strLess] at h1 h2
      by_cases hyx : y.toNat < x.toNat
      · simp [hyx] at h1
      · by_cases hxy : x.toNat < y.toNat
        · simp [hxy] at h2
        · simp only [hyx, hxy, if_false] at h1 h2
          have hx : x = y := UInt8_eq_of_toNat x y (by omega)
          rw [hx, ih ys h1 h2]

theorem sortByName_sorted (l : List GoString) : List.Sorted nameLE (sortByName l) :=
  @List.sorted_insertionSort GoString nameLE _ ⟨nameLE_total⟩ ⟨nameLE_trans⟩ l

theorem sortByName_perm (l : List GoString) : (sortByName l).Perm l :=
  List.perm_insertionSort nameLE l

/-- The sorted names do not depend on the order the names come in. -/
theorem sortByName_of_perm (l1 l2 : List GoString) (h : l1.Perm l2) :
    sortByName l1 = sortByName l2 :=
  @List.eq_of_perm_of_sorted GoString nameLE ⟨nameLE_antisymm⟩ _ _
    ((sortByName_perm l1).trans (h.trans (sortByName_perm l2).symm))
    (sortByName_sorted l1) (sortByName_sorted l2)

/-- The last of the sorted names is a name of the list that no name exceeds. -/
theorem sortByName_getLast (l : List GoString) (m : GoString)
    (h : (sortByName l).getLast? = some m) : m ∈ l ∧ ∀ x ∈ l, strLess m x = false := by
  obtain ⟨ini, hini⟩ : ∃ ini, sortByName l = ini ++ [m] := by
    rcases List.eq_nil_or_concat (sortByName l) with hnil | ⟨ini, b, hb⟩
    · rw [hnil] at h
      simp at h
    · rw [hb] at h
      simp at h
      exact ⟨ini, by rw [hb, h, List.concat_eq_append]⟩
  have hs := sortByName_sorted l
  rw [hini] at hs
  have hp := sortByName_perm l
  rw [hini] at hp
  refine ⟨hp.subset (by simp), fun x hx => ?_⟩
  have hx1 : x ∈ ini ++ [m] := hp.symm.subset hx
  rcases List.mem_append.1 hx1 with hx2 | hx2
  · have := (List.pairwise_append.1 hs).2.2 x hx2 m (by simp)
    exact this
  · simp only [List.mem_singleton] at hx2
    rw [hx2]
    exact strLess_irrefl m

theorem sortByName_getLast_of_ne_nil (l : List GoString) (h : l ≠ []) :
    ∃ m, (sortByName l).getLast? = some m := by
  cases hs : (sortByName l).getLast? with
  | some m => exact ⟨m, rfl⟩
  | none =>
    have hnil : sortByName l = [] := List.getLast?_eq_none_iff.1 hs
    have hp := sortByName_perm l
    rw [hnil] at hp
    exact absurd hp.nil_eq.symm h

theorem lastBlockIn_eq (l : List GoString) (m : GoString)
    (h : (sortByName l).getLast? = some m) : lastBlockIn l = (blockNumber m).getD 0 := by
  unfold lastBlockIn blockNumber
  rw [h]
  cases hp : ParseUint ((Split m 45).headD []) with
  | error e => simp only [hp, Option.getD_none]
  | ok n =>
    simp only [hp, Option.getD_some]
    by_cases hn : n > 0
    · rw [if_pos hn]
    · rw [if_neg hn]
      omega

theorem foldr_max_eq (l : List Nat) (v : Nat) (hle : ∀ x ∈ l, x ≤ v) (hv : v ∈ l ∨ v = 0) :
    l.foldr Nat.max 0 = v := by
  have hup : ∀ l : List Nat, (∀ x ∈ l, x ≤ v) → l.foldr Nat.max 0 ≤ v := by
    intro l
    induction l with
    | nil => intro _; simp
    | cons a as ih =>
      intro h
      simp only [List.foldr_cons]
      exact Nat.max_le.2 ⟨h a (List.mem_cons_self _ _),
        ih (fun x hx => h x (List.mem_cons_of_mem _ hx))⟩
  have hlow : ∀ l : List Nat, v ∈ l → v ≤ l.foldr Nat.max 0 := by
    intro l
    induction l with
    | nil => intro h; simp at h
    | cons a as ih =>
      intro h
      simp only [List.foldr_cons]
      rcases List.mem_cons.1 h with rfl | h
      · exact Nat.le_max_left _ _
      · exact le_trans (ih h) (Nat.le_max_right _ _)
  rcases hv with hv | hv
  · exact le_antisymm (hup l hle) (hlow l hv)
  · have := hup l hle
    omega

/-- C18, as the code has it: `lastBlockIn` returns 0 on the empty list, and on
a list with names it returns the block number of the name that is last in
byte-wise string order (0 when that name has no number); the result does not
depend on the order of the list; and it is the greatest block number among the
names whenever the string order of the names agrees with the order of their
numbers, as with numbers padded to one width. -/
theorem C18_lastBlockIn_last_name (blocks : List GoString) :
    lastBlockIn [] = 0 ∧
    (blocks ≠ [] → ∃ m ∈ blocks, (∀ x ∈ blocks, strLess m x = false) ∧
      lastBlockIn blocks = (blockNumber m).getD 0) ∧
    (∀ blocks2 : List GoString, blocks.Perm blocks2 → lastBlockIn blocks2 = lastBlockIn blocks) ∧
    ((∀ a ∈ blocks, ∀ b ∈ blocks, strLess a b = true →
        (blockNumber a).getD 0 ≤ (blockNumber b).getD 0) →
      lastBlockIn blocks = greatestBlockNumber blocks) := by
  refine ⟨rfl, fun hne => ?_, fun blocks2 hperm => ?_, fun hmono => ?_⟩
  · obtain ⟨m, hm⟩ := sortByName_getLast_of_ne_nil blocks hne
    obtain ⟨hmem, hmax⟩ := sortByName_getLast blocks m hm
    exact ⟨m, hmem, hmax, lastBlockIn_eq blocks m hm⟩
  · unfold lastBlockIn
    rw [sortByName_of_perm blocks blocks2 hperm]
  · cases blocks with
    | nil => rfl
    | cons b bs =>
      obtain ⟨m, hm⟩ := sortByName_getLast_of_ne_nil (b :: bs) (by simp)
      obtain ⟨hmem, hmax⟩ := sortByName_getLast (b :: bs) m hm
      rw [lastBlockIn_eq (b :: bs) m hm]
      symm
      apply foldr_max_eq
      · intro x hx
        obtain ⟨name, hname, hnum⟩ := List.mem_filterMap.1 hx
        have hxm : (blockNumber name).getD 0 ≤ (blockNumber m).getD 0 := by
          cases hlt : strLess name m with
          | true => exact hmono name hname m hmem hlt
          | false =>
            have : name = m := nameLE_antisymm name m (hmax name hname) hlt
            rw [this]
        rw [hnum] at hxm
        exact hxm
      · cases hbn : blockNumber m with
        | none => exact Or.inr rfl
        | some n =>
          left
          exact List.mem_filterMap.2 ⟨m, hmem, hbn⟩

/-- Witness of C18 at two names with numbers padded to ten digits. -/
theorem C18_witness :
    [str "0000000010-b", str "0000000009-a"] ≠ [] ∧
    (∀ a ∈ [str "0000000010-b", str "0000000009-a"],
      ∀ b ∈ [str "0000000010-b", str "0000000009-a"], strLess a b = true →
        (blockNumber a).getD 0 ≤ (blockNumber b).getD 0) ∧
    lastBlockIn [str "0000000010-b", str "0000000009-a"] =
      greatestBlockNumber [str "0000000010-b", str "0000000009-a"] ∧
    greatestBlockNumber [str "0000000010-b", str "0000000009-a"] = 10 :=
  ⟨by decide, by decide,
    (C18_lastBlockIn_last_name [str "0000000010-b", str "0000000009-a"]).2.2.2 (by decide),
    by decide⟩

/-- C18 as stated fails: among the names `9-a` and `10-b` the greatest block
number is 10, and `lastBlockIn` returns 9, the number of the name that is last
in string order; and a name without number that sorts last, as `tmp`, makes it
return 0 although another name has the number 5. -/
theorem C18_counterexample :
    lastBlockIn [str "9-a", str "10-b"] = 9 ∧
    greatestBlockNumber [str "9-a", str "10-b"] = 10 ∧
    lastBlockIn [str "5-x", str "tmp"] = 0 ∧
    greatestBlockNumber [str "5-x", str "tmp"] = 5 := by
  decide

theorem max_eq_Nat_max (x y : Nat) : max x y = Max.max x y := by
  unfold max
  by_cases h : x < y
  · rw [if_pos h]
    omega
  · rw [if_neg h]
    omega

/-- C19, as the code has it: `countBlocks` returns 101 when both listings are
empty or missing; and when no sum overflows, that is when
`c = |one| + 100 * |merged|` and `L + 1` are below `2 ^ 64` for
`L = max(lastBlockIn(one), lastBlockIn(merged) + 100)`, it returns `L + 1` if
`L > c` and `c` otherwise, which is at least 100. -/
theorem C19_countBlocks (one merged : Option (List GoString))
    (hc : (one.getD []).length + 100 * (merged.getD []).length < 2 ^ 64)
    (hL : Max.max (lastBlockIn (one.getD [])) (lastBlockIn (merged.getD []) + 100) + 1
      < 2 ^ 64) :
    countBlocks none none = 101 ∧ countBlocks (some []) (some []) = 101 ∧
    countBlocks none (some []) = 101 ∧ countBlocks (some []) none = 101 ∧
    countBlocks one merged =
      (if Max.max (lastBlockIn (one.getD [])) (lastBlockIn (merged.getD []) + 100) >
          (one.getD []).length + 100 * (merged.getD []).length
        then Max.max (lastBlockIn (one.getD [])) (lastBlockIn (merged.getD []) + 100) + 1
        else (one.getD []).length + 100 * (merged.getD []).length) ∧
    100 ≤ countBlocks one merged := by
  have hgen : countBlocks one merged =
      (if Max.max (lastBlockIn (one.getD [])) (lastBlockIn (merged.getD []) + 100) >
          (one.getD []).length + 100 * (merged.getD []).length
        then Max.max (lastBlockIn (one.getD [])) (lastBlockIn (merged.getD []) + 100) + 1
        else (one.getD []).length + 100 * (merged.getD []).length) := by
    cases one with
    | none =>
      cases merged with
      | none =>
        simp only [countBlocks, Option.getD_none, List.length_nil, max_eq_Nat_max] at *
        split <;> split <;> omega
      | some l =>
        simp only [countBlocks, Option.getD_none, Option.getD_some, List.length_nil,
          max_eq_Nat_max] at *
        split <;> split <;> omega
    | some l1 =>
      cases merged with
      | none =>
        simp only [countBlocks, Option.getD_none, Option.getD_some, List.length_nil,
          max_eq_Nat_max] at *
        split <;> split <;> omega
      | some l =>
        simp only [countBlocks, Option.getD_some, max_eq_Nat_max] at *
        split <;> split <;> omega
  refine ⟨by decide, by decide, by decide, by decide, hgen, ?_⟩
  rw [hgen]
  split <;> omega

/-- Witness of C19: one one-block file numbered 150 and one merged file
numbered 0 give 151. -/
theorem C19_witness :
    countBlocks (some [str "0000000150-a"]) (some [str "0000000000-a"]) = 151 ∧
    100 ≤ countBlocks (some [str "0000000150-a"]) (some [str "0000000000-a"]) :=
  ⟨by decide,
    (C19_countBlocks (some [str "0000000150-a"]) (some [str "0000000000-a"])
      (by decide) (by decide)).2.2.2.2.2⟩

/-- C19 as stated fails: with the single one-block file
`18446744073709551615-a` the last block number is `2 ^ 64 - 1`, the sum
`L + 1` wraps, and `countBlocks` returns 0, which is below 100. -/
theorem C19_counterexample :
    lastBlockIn [str "18446744073709551615-a"] = 18446744073709551615 ∧
    countBlocks (some [str "18446744073709551615-a"]) none = 0 ∧
    ¬ (100 ≤ countBlocks (some [str "18446744073709551615-a"]) none) := by
  decide

end Cli
